import Mathlib

/-!
Verification of the FiskalHR Go library (l-d-t/fiskalhrgo) against its
natural-language specification.

Go strings are modelled as lists of bytes (`GoStr`), machine integers as
`Nat` with explicit reductions modulo powers of two where the Go code
performs fixed-width arithmetic.  Pure Go functions become Lean
functions; fallible Go functions return `Except`; functions whose
behaviour depends on the environment (file system, embedded
certificates) take the outcome of that interaction as an explicit
parameter.
-/

set_option maxRecDepth 1000000

namespace FiskalHR

/-- Go strings, viewed as their byte sequence. -/
abbrev GoStr := List Nat

/-- Byte sequence of an ASCII Lean string literal (used for concrete inputs). -/
def gostr (s : String) : GoStr := s.data.map Char.toNat

instance {α β : Type} [DecidableEq α] [DecidableEq β] : DecidableEq (Except α β) := fun a b =>
  match a, b with
  | .error x, .error y =>
    if h : x = y then isTrue (h ▸ rfl) else isFalse (fun hc => h (Except.error.inj hc))
  | .ok x, .ok y =>
    if h : x = y then isTrue (h ▸ rfl) else isFalse (fun hc => h (Except.ok.inj hc))
  | .error _, .ok _ => isFalse Except.noConfusion
  | .ok _, .error _ => isFalse Except.noConfusion

/-- Test whether a byte is an ASCII decimal digit. -/
def isDigitByte (b : Nat) : Bool := 48 ≤ b && b ≤ 57

/-- Go expression `int(b - '0')` on a byte: subtraction wraps modulo 256. -/
def goDigit (b : Nat) : Nat := (b + 208) % 256

/-- Decimal digit characters of a natural number, as ASCII bytes
(Go `strconv.FormatUint(n, 10)`). -/
def natToDec (n : Nat) : GoStr := (Nat.toDigits 10 n).map Char.toNat

/-!
## basicvalidators.go
-/

/-- IsValidCurrencyFormat from basicvalidators.go: the regular expression
match for one or more digits, a dot, and exactly two digits
(pattern `^\d+(\.\d\x7b2\x7d)$`), executed on the byte string. -/
def IsValidCurrencyFormat (amount : GoStr) : Bool :=
  let intPart := amount.takeWhile isDigitByte
  let rest := amount.dropWhile isDigitByte
  !intPart.isEmpty &&
    match rest with
    | [dot, a, b] => dot == 46 && isDigitByte a && isDigitByte b
    | _ => false

/-- One step of the ISO 7064 Mod 11,10 state update used by ValidateOIB:
add the digit, reduce mod 10 mapping 0 to 10, double, reduce mod 11. -/
def mod1110Step (r d : Nat) : Nat :=
  let m := (r + d) % 10
  (if m = 0 then 10 else m) * 2 % 11

/-- The loop of ValidateOIB over the first ten bytes: threads the Mod 11,10
state, failing on any byte that is not an ASCII digit (the Go code checks
`digit < 0 || digit > 9` on the wrapped byte difference). -/
def oibLoop : Nat → List Nat → Option Nat
  | r, [] => some r
  | r, b :: bs =>
    let d := goDigit b
    if d > 9 then none else oibLoop (mod1110Step r d) bs

/-- ValidateOIB from basicvalidators.go: length must be exactly 11 bytes,
the Mod 11,10 state is threaded through the first ten digits starting
from 10, the check digit `(11 - r) % 10` is compared with the last digit. -/
def ValidateOIB (oib : GoStr) : Bool :=
  if oib.length ≠ 11 then false
  else
    match oibLoop 10 (oib.take 10) with
    | none => false
    | some r =>
      let checkDigit := (11 - r) % 10
      let lastDigit := goDigit (oib.getD 10 0)
      if lastDigit > 9 then false else checkDigit == lastDigit

/-- Test whether a byte is an ASCII letter or digit. -/
def isAlnumByte (b : Nat) : Bool :=
  (48 ≤ b && b ≤ 57) || (65 ≤ b && b ≤ 90) || (97 ≤ b && b ≤ 122)

/-- ValidateLocationID from basicvalidators.go: pattern
`^[a-zA-Z0-9]\x7b1,20\x7d$`. -/
def ValidateLocationID (locationID : GoStr) : Bool :=
  1 ≤ locationID.length && locationID.length ≤ 20 &&
    locationID.all isAlnumByte

/-- Test whether a byte is a lowercase hexadecimal character `[0-9a-f]`. -/
def isLowerHexByte (b : Nat) : Bool :=
  (48 ≤ b && b ≤ 57) || (97 ≤ b && b ≤ 102)

/-- ValidateZKI from basicvalidators.go: pattern `^[0-9a-f]\x7b32\x7d$`. -/
def ValidateZKI (zki : GoStr) : Bool :=
  zki.length == 32 && zki.all isLowerHexByte

/-- ValidateJIR from basicvalidators.go: UUID shape
8-4-4-4-12 lowercase hexadecimal groups separated by dashes. -/
def ValidateJIR (jir : GoStr) : Bool :=
  jir.length == 36 &&
    (List.range 36).all fun i =>
      if i = 8 || i = 13 || i = 18 || i = 23 then jir.getD i 0 == 45
      else isLowerHexByte (jir.getD i 0)

/-!
## Hash primitives

Executable embeddings of SHA-1 (FIPS 180-4) and MD5 (RFC 1321) over byte
lists, as used by crypto/sha1 and crypto/md5 in GenerateZKI.  32-bit
words are `Nat` reduced modulo 2^32 at every operation that can
overflow.
-/

/-- Rotate a 32-bit word left by `k` bits. -/
def rotl32 (x k : Nat) : Nat :=
  ((x <<< k) % 4294967296) ||| (x >>> (32 - k))

/-- Group bytes into big-endian 32-bit words (SHA-1 block parsing). -/
def bytesToWordsBE : List Nat → List Nat
  | a :: b :: c :: d :: rest => (((a * 256 + b) * 256 + c) * 256 + d) :: bytesToWordsBE rest
  | _ => []

/-- Big-endian bytes of a 32-bit word. -/
def be4 (w : Nat) : List Nat :=
  [w / 16777216 % 256, w / 65536 % 256, w / 256 % 256, w % 256]

/-- Big-endian bytes of a 64-bit word. -/
def be8 (w : Nat) : List Nat := be4 (w / 4294967296) ++ be4 w

/-- Merkle-Damgard padding shared by SHA-1 and MD5: append bit 1, zero
bytes up to 56 mod 64, then the 8-byte encoded bit length. -/
def mdPad (msg : List Nat) (lenBytes : List Nat) : List Nat :=
  msg ++ [128] ++ List.replicate ((119 - msg.length % 64) % 64) 0 ++ lenBytes

/-- Split a word list into 16-word blocks, dropping any ragged tail
(none exists after padding). -/
def chunks16 : List Nat → List (List Nat)
  | w0 :: w1 :: w2 :: w3 :: w4 :: w5 :: w6 :: w7 ::
    w8 :: w9 :: w10 :: w11 :: w12 :: w13 :: w14 :: w15 :: rest =>
    [w0, w1, w2, w3, w4, w5, w6, w7, w8, w9, w10, w11, w12, w13, w14, w15] ::
      chunks16 rest
  | _ => []

/-- SHA-1 message-schedule extension, keeping the schedule in reverse so
the words 3, 8, 14 and 16 positions back are at indices 2, 7, 13, 15. -/
def sha1ExtendRev : List Nat → Nat → List Nat
  | acc, 0 => acc
  | acc, fuel + 1 =>
    let w := rotl32 ((acc.getD 2 0) ^^^ (acc.getD 7 0) ^^^ (acc.getD 13 0) ^^^ (acc.getD 15 0)) 1
    sha1ExtendRev (w :: acc) fuel

/-- The 80 SHA-1 compression rounds on state (a, b, c, d, e). -/
def sha1Rounds : Nat → List Nat → Nat × Nat × Nat × Nat × Nat → Nat × Nat × Nat × Nat × Nat
  | _, [], st => st
  | t, w :: ws, (a, b, c, d, e) =>
    let f :=
      if t < 20 then (b &&& c) ||| ((b ^^^ 4294967295) &&& d)
      else if t < 40 then b ^^^ c ^^^ d
      else if t < 60 then (b &&& c) ||| (b &&& d) ||| (c &&& d)
      else b ^^^ c ^^^ d
    let k :=
      if t < 20 then 1518500249
      else if t < 40 then 1859775393
      else if t < 60 then 2400959708
      else 3395469782
    let temp := (rotl32 a 5 + f + e + k + w) % 4294967296
    sha1Rounds (t + 1) ws (temp, a, rotl32 b 30, c, d)

/-- SHA-1 over the 512-bit blocks, chaining the five-word state. -/
def sha1Chunks : Nat × Nat × Nat × Nat × Nat → List (List Nat) → Nat × Nat × Nat × Nat × Nat
  | h, [] => h
  | (h0, h1, h2, h3, h4), blk :: rest =>
    let ws := (sha1ExtendRev blk.reverse 64).reverse
    let (a, b, c, d, e) := sha1Rounds 0 ws (h0, h1, h2, h3, h4)
    sha1Chunks ((h0 + a) % 4294967296, (h1 + b) % 4294967296, (h2 + c) % 4294967296,
      (h3 + d) % 4294967296, (h4 + e) % 4294967296) rest

/-- SHA-1 digest (20 bytes) of a byte sequence. -/
def sha1 (msg : List Nat) : List Nat :=
  let padded := mdPad msg (be8 (msg.length * 8))
  let (h0, h1, h2, h3, h4) :=
    sha1Chunks (1732584193, 4023233417, 2562383102, 271733878, 3285377520)
      (chunks16 (bytesToWordsBE padded))
  be4 h0 ++ be4 h1 ++ be4 h2 ++ be4 h3 ++ be4 h4

/-- Group bytes into little-endian 32-bit words (MD5 block parsing). -/
def bytesToWordsLE : List Nat → List Nat
  | a :: b :: c :: d :: rest => (((d * 256 + c) * 256 + b) * 256 + a) :: bytesToWordsLE rest
  | _ => []

/-- Little-endian bytes of a 32-bit word. -/
def le4 (w : Nat) : List Nat :=
  [w % 256, w / 256 % 256, w / 65536 % 256, w / 16777216 % 256]

/-- Little-endian bytes of a 64-bit word. -/
def le8 (w : Nat) : List Nat := le4 w ++ le4 (w / 4294967296)

/-- The 64 MD5 round constants (RFC 1321 T table). -/
def md5K : List Nat :=
  [0xd76aa478, 0xe8c7b756, 0x242070db, 0xc1bdceee,
   0xf57c0faf, 0x4787c62a, 0xa8304613, 0xfd469501,
   0x698098d8, 0x8b44f7af, 0xffff5bb1, 0x895cd7be,
   0x6b901122, 0xfd987193, 0xa679438e, 0x49b40821,
   0xf61e2562, 0xc040b340, 0x265e5a51, 0xe9b6c7aa,
   0xd62f105d, 0x02441453, 0xd8a1e681, 0xe7d3fbc8,
   0x21e1cde6, 0xc33707d6, 0xf4d50d87, 0x455a14ed,
   0xa9e3e905, 0xfcefa3f8, 0x676f02d9, 0x8d2a4c8a,
   0xfffa3942, 0x8771f681, 0x6d9d6122, 0xfde5380c,
   0xa4beea44, 0x4bdecfa9, 0xf6bb4b60, 0xbebfbc70,
   0x289b7ec6, 0xeaa127fa, 0xd4ef3085, 0x04881d05,
   0xd9d4d039, 0xe6db99e5, 0x1fa27cf8, 0xc4ac5665,
   0xf4292244, 0x432aff97, 0xab9423a7, 0xfc93a039,
   0x655b59c3, 0x8f0ccc92, 0xffeff47d, 0x85845dd1,
   0x6fa87e4f, 0xfe2ce6e0, 0xa3014314, 0x4e0811a1,
   0xf7537e82, 0xbd3af235, 0x2ad7d2bb, 0xeb86d391]

/-- The MD5 per-round left-rotation amounts. -/
def md5S : List Nat :=
  [7, 12, 17, 22, 7, 12, 17, 22, 7, 12, 17, 22, 7, 12, 17, 22,
   5, 9, 14, 20, 5, 9, 14, 20, 5, 9, 14, 20, 5, 9, 14, 20,
   4, 11, 16, 23, 4, 11, 16, 23, 4, 11, 16, 23, 4, 11, 16, 23,
   6, 10, 15, 21, 6, 10, 15, 21, 6, 10, 15, 21, 6, 10, 15, 21]

/-- The 64 MD5 compression rounds on state (a, b, c, d) over one block `m`. -/
def md5Rounds (m : List Nat) : Nat → Nat → Nat × Nat × Nat × Nat → Nat × Nat × Nat × Nat
  | 0, _, st => st
  | fuel + 1, i, (a, b, c, d) =>
    let fg : Nat × Nat :=
      if i < 16 then ((b &&& c) ||| ((b ^^^ 4294967295) &&& d), i)
      else if i < 32 then ((d &&& b) ||| ((d ^^^ 4294967295) &&& c), (5 * i + 1) % 16)
      else if i < 48 then (b ^^^ c ^^^ d, (3 * i + 5) % 16)
      else (c ^^^ (b ||| (d ^^^ 4294967295)), 7 * i % 16)
    let f := (fg.1 + a + md5K.getD i 0 + m.getD fg.2 0) % 4294967296
    md5Rounds m fuel (i + 1) (d, (b + rotl32 f (md5S.getD i 0)) % 4294967296, b, c)

/-- MD5 over the 512-bit blocks, chaining the four-word state. -/
def md5Chunks : Nat × Nat × Nat × Nat → List (List Nat) → Nat × Nat × Nat × Nat
  | h, [] => h
  | (h0, h1, h2, h3), blk :: rest =>
    let (a, b, c, d) := md5Rounds blk 64 0 (h0, h1, h2, h3)
    md5Chunks ((h0 + a) % 4294967296, (h1 + b) % 4294967296,
      (h2 + c) % 4294967296, (h3 + d) % 4294967296) rest

/-- MD5 digest (16 bytes) of a byte sequence. -/
def md5 (msg : List Nat) : List Nat :=
  let padded := mdPad msg (le8 (msg.length * 8))
  let (h0, h1, h2, h3) :=
    md5Chunks (1732584193, 4023233417, 2562383102, 271733878)
      (chunks16 (bytesToWordsLE padded))
  le4 h0 ++ le4 h1 ++ le4 h2 ++ le4 h3

/-- Lowercase hexadecimal character for a nibble (as in Go fmt %x). -/
def hexDigitChar (n : Nat) : Nat := if n < 10 then 48 + n else 87 + n

/-- Lowercase hexadecimal rendering of a byte sequence (Go `fmt.Sprintf`
with `%x`), two characters per byte. -/
def hexEncode (l : List Nat) : GoStr :=
  l.foldr (fun b acc => hexDigitChar (b / 16 % 16) :: hexDigitChar (b % 16) :: acc) []

example : hexEncode (sha1 (gostr "abc")) = gostr "a9993e364706816aba3e25717850c26c9cd0d89d" := by
  decide

example : hexEncode (md5 (gostr "abc")) = gostr "900150983cd24fb0d6963f7d28e17f72" := by
  decide

/-!
## RSA PKCS#1 v1.5 signing (crypto/rsa SignPKCS1v15 with crypto.SHA1)
-/

/-- An RSA private key, reduced to the modulus and private exponent that
determine the (deterministic) PKCS#1 v1.5 signature value. -/
structure RSAKey where
  modulus : Nat
  privExp : Nat
deriving DecidableEq

/-- Byte length with an explicit recursion bound; exact for all moduli
up to 2^16384, far beyond any RSA key in use. -/
def byteLenAux : Nat → Nat → Nat
  | 0, _ => 0
  | fuel + 1, n => if n = 0 then 0 else byteLenAux fuel (n / 256) + 1

/-- Byte length of a natural number (Go rsa PublicKey Size). -/
def byteLen (n : Nat) : Nat := byteLenAux 2048 n

/-- Big-endian bytes to natural number (PKCS#1 OS2IP). -/
def os2ip (l : List Nat) : Nat := l.foldl (fun acc b => acc * 256 + b) 0

/-- Natural number to `k` big-endian bytes (PKCS#1 I2OSP). -/
def i2osp : Nat → Nat → List Nat
  | _, 0 => []
  | x, k + 1 => i2osp (x / 256) k ++ [x % 256]

/-- The DER DigestInfo header for SHA-1 that SignPKCS1v15 places before
the digest (crypto/rsa hashPrefixes for crypto.SHA1). -/
def sha1DigestInfoHeader : List Nat :=
  [0x30, 0x21, 0x30, 0x09, 0x06, 0x05, 0x2b, 0x0e, 0x03, 0x02, 0x1a, 0x05, 0x00, 0x04, 0x14]

/-- SignPKCS1v15 with crypto.SHA1: build the EMSA-PKCS1-v1_5 encoded
message 00 01 FF..FF 00 DigestInfo digest, then apply the private-key
operation m^d mod n.  The `rng` argument mirrors the `rand.Reader`
parameter of the Go call; PKCS#1 v1.5 signing is deterministic and the
randomness influences only internal blinding, so it is unused here.
Fails when the key is smaller than the encoded message plus 11 bytes,
as in Go (ErrMessageTooLong). -/
def signPKCS1v15SHA1 (rng : Nat) (key : RSAKey) (hashed : List Nat) : Except GoStr (List Nat) :=
  let _ := rng
  let tLen := sha1DigestInfoHeader.length + 20
  let k := byteLen key.modulus
  if k < tLen + 11 then .error (gostr "crypto/rsa: message too long for RSA public key size")
  else
    let em := [0, 1] ++ List.replicate (k - tLen - 3) 255 ++ [0] ++ sha1DigestInfoHeader ++ hashed
    .ok (i2osp (os2ip em ^ key.privExp % key.modulus) k)

/-!
## Time values and their Go layout strings
-/

/-- A calendar date-time, the part of Go `time.Time` that the layouts
`02.01.2006 15:04:05` and `02.01.2006T15:04:05` expose. -/
structure DateTime where
  year : Nat
  month : Nat
  day : Nat
  hour : Nat
  minute : Nat
  second : Nat
deriving DecidableEq

/-- Decimal rendering zero-padded to two characters (Go layout `02`). -/
def pad2 (n : Nat) : GoStr := if n < 10 then 48 :: natToDec n else natToDec n

/-- Decimal rendering zero-padded to four characters (Go layout `2006`). -/
def pad4 (n : Nat) : GoStr :=
  (if n < 10 then [48, 48, 48] else if n < 100 then [48, 48]
   else if n < 1000 then [48] else []) ++ natToDec n

/-- Go `Format("02.01.2006 15:04:05")`: the ZKI timestamp layout used by
GenerateZKI, with a space between the date and the time. -/
def formatTimeSpace (t : DateTime) : GoStr :=
  pad2 t.day ++ [46] ++ pad2 t.month ++ [46] ++ pad4 t.year ++ [32] ++
    pad2 t.hour ++ [58] ++ pad2 t.minute ++ [58] ++ pad2 t.second

/-- Go `Format("02.01.2006T15:04:05")`: the invoice DatVrijeme layout
used by NewCISInvoice, with a literal T between the date and the time. -/
def formatTimeT (t : DateTime) : GoStr :=
  pad2 t.day ++ [46] ++ pad2 t.month ++ [46] ++ pad4 t.year ++ [84] ++
    pad2 t.hour ++ [58] ++ pad2 t.minute ++ [58] ++ pad2 t.second

/-- Parse exactly two digit bytes (Go getnum with fixed width). -/
def parseFixed2 : GoStr → Option (Nat × GoStr)
  | a :: b :: rest =>
    if isDigitByte a && isDigitByte b then some ((a - 48) * 10 + (b - 48), rest) else none
  | _ => none

/-- Parse one or two digit bytes (Go getnum without fixed width, as the
hour field `15` of a layout). -/
def parseUpTo2 : GoStr → Option (Nat × GoStr)
  | [] => none
  | a :: rest =>
    if !isDigitByte a then none
    else
      match rest with
      | b :: rest2 =>
        if isDigitByte b then some ((a - 48) * 10 + (b - 48), rest2) else some (a - 48, rest)
      | [] => some (a - 48, [])

/-- Parse four digit bytes (Go layout `2006`). -/
def parseFixed4 (s : GoStr) : Option (Nat × GoStr) := do
  let (hi, s) ← parseFixed2 s
  let (lo, s) ← parseFixed2 s
  pure (hi * 100 + lo, s)

/-- Consume one expected literal byte. -/
def parseLit (c : Nat) : GoStr → Option GoStr
  | x :: rest => if x = c then some rest else none
  | [] => none

/-- Whether a year is a leap year (Go time isLeap). -/
def isLeap (y : Nat) : Bool := y % 4 == 0 && (y % 100 != 0 || y % 400 == 0)

/-- Days in a month (Go time daysIn). -/
def daysIn (month year : Nat) : Nat :=
  if month = 2 then (if isLeap year then 29 else 28)
  else if month = 4 ∨ month = 6 ∨ month = 9 ∨ month = 11 then 30
  else 31

/-- Go `time.Parse("02.01.2006T15:04:05", s)`: two-digit day, month,
minute and second, four-digit year, one-or-two-digit hour, literal dots,
T and colons, no trailing bytes, and the range checks time.Parse
performs (month 1..12, day within the month, hour below 24, minute and
second below 60). -/
def parseDatVrijeme (s : GoStr) : Option DateTime := do
  let (day, s) ← parseFixed2 s
  let s ← parseLit 46 s
  let (month, s) ← parseFixed2 s
  let s ← parseLit 46 s
  let (year, s) ← parseFixed4 s
  let s ← parseLit 84 s
  let (hour, s) ← parseUpTo2 s
  let s ← parseLit 58 s
  let (minute, s) ← parseFixed2 s
  let s ← parseLit 58 s
  let (second, s) ← parseFixed2 s
  if s = [] ∧ 1 ≤ month ∧ month ≤ 12 ∧ 1 ≤ day ∧ day ≤ daysIn month year ∧
      hour ≤ 23 ∧ minute ≤ 59 ∧ second ≤ 59 then
    some ⟨year, month, day, hour, minute, second⟩
  else none

/-!
## Certificate manager and fiscal entity (cert.go, part 004)
-/

/-- The fields of certManager (cert.go) that the verified operations
read: the RSA signing key and the derived attributes checked at entity
construction. -/
structure CertManager where
  privateKey : RSAKey
  certOIB : GoStr
  init_ok : Bool
  expired : Bool
deriving DecidableEq

/-- FiskalEntity (part 004): taxpayer data plus the loaded certificate
manager.  The CIS peer certificate and endpoint URL play no part in the
verified operations and are omitted. -/
structure FiskalEntity where
  oib : GoStr
  sustPDV : Bool
  locationID : GoStr
  centralizedInvoiceNumber : Bool
  demoMode : Bool
  cert : CertManager
deriving DecidableEq

/-!
## GenerateZKI (part 004 lines 669-701, canonicalization.go 384-416)
-/

/-- GenerateZKI translated line by line: format the issue time with the
layout `02.01.2006 15:04:05`, reject an invalid total amount, render the
invoice number and device ID in decimal, concatenate OIB, formatted
time, invoice number, location ID, device ID and total amount with no
separators, SHA-1 the concatenation, sign with RSA PKCS#1 v1.5 over
SHA-1, MD5 the signature, and hex-encode the digest.  The first
argument mirrors the `rand.Reader` passed to the signing primitive. -/
def GenerateZKI (rng : Nat) (entity : FiskalEntity) (issueDateTime : DateTime)
    (invoiceNumber deviceID : Nat) (totalAmount : GoStr) : Except GoStr GoStr :=
  let formattedTime := formatTimeSpace issueDateTime
  if !IsValidCurrencyFormat totalAmount then
    .error (gostr "invalid totalAmount format; expected a string with 2 decimal places (e.g., 100.00)")
  else
    let invoiceNumberStr := natToDec invoiceNumber
    let deviceIDStr := natToDec deviceID
    let guardCode := entity.oib ++ formattedTime ++ invoiceNumberStr ++
      entity.locationID ++ deviceIDStr ++ totalAmount
    let hashed := sha1 guardCode
    match signPKCS1v15SHA1 rng entity.cert.privateKey hashed with
    | .error e => .error (gostr "failed to sign data: " ++ e)
    | .ok signature => .ok (hexEncode (md5 signature))

/-- The spec's two-stage hash-sign-hash pipeline applied to a finished
field concatenation: SHA-1 the bytes, sign the digest with PKCS#1 v1.5
over SHA-1, MD5 the signature bytes, hex-encode the digest (signing
failures wrapped as GenerateZKI wraps them). -/
def zkiOfGuardCode (rng : Nat) (key : RSAKey) (guardCode : GoStr) : Except GoStr GoStr :=
  match signPKCS1v15SHA1 rng key (sha1 guardCode) with
  | .error e => .error (gostr "failed to sign data: " ++ e)
  | .ok sig => .ok (hexEncode (md5 sig))

/-- The field concatenation exactly as claim C1 words it: taxpayer ID,
then the timestamp with a literal T between date and time, invoice
number, location ID, device ID, total amount, no separators. -/
def guardCodeWithT (entity : FiskalEntity) (t : DateTime) (invNum devID : Nat)
    (total : GoStr) : GoStr :=
  entity.oib ++ formatTimeT t ++ natToDec invNum ++ entity.locationID ++
    natToDec devID ++ total

/-- The field concatenation with the space-separated timestamp the code
actually uses. -/
def guardCodeSpaced (entity : FiskalEntity) (t : DateTime) (invNum devID : Nat)
    (total : GoStr) : GoStr :=
  entity.oib ++ formatTimeSpace t ++ natToDec invNum ++ entity.locationID ++
    natToDec devID ++ total

/-!
## Invoice record and lifecycle (fiskal-schema.go, part 011)
-/

/-- BrojRacunaType: the invoice number compound key. -/
structure BrojRacuna where
  BrOznRac : Nat
  OznPosPr : GoStr
  OznNapUr : Nat
deriving DecidableEq

/-- RacunType restricted to the fields the verified operations read:
identity and sequencing fields, total amount, protection code,
late-delivery flag, special-purpose field and the two entity
back-references.  The tax-breakdown sub-records are opaque to every
claim and are omitted. -/
structure RacunType where
  Oib : GoStr
  USustPdv : Bool
  DatVrijeme : GoStr
  OznSlijed : GoStr
  BrRac : BrojRacuna
  IznosUkupno : GoStr
  NacinPlac : GoStr
  OibOper : GoStr
  ZastKod : GoStr
  NakDost : Bool
  SpecNamj : GoStr
  pointerToEntity : FiskalEntity
  oldEntityForOldZKI : Option FiskalEntity
deriving DecidableEq

/-- The entity whose key InvoiceRequest uses to recompute the ZKI: the
old entity when the expired-certificate edge case was set up, otherwise
the invoice's current entity (part 011 lines 335-340). -/
def chkEntityOf (inv : RacunType) : FiskalEntity :=
  match inv.oldEntityForOldZKI with
  | some old => old
  | none => inv.pointerToEntity

/-- The local phase of InvoiceRequest (part 011 lines 314-405): every
check performed before the first network interaction, in source order —
nil invoice, non-empty SpecNamj, empty ZastKod, date parse, choice of
the old entity when the expired-certificate edge case was set up,
recomputation of the ZKI and exact comparison with the stored one.  A
`.ok` result marks the point where the code proceeds to marshal the
request and call GetResponse; every `.error` is returned before any
network interaction. -/
def InvoiceRequestLocal (rng : Nat) (invoice : Option RacunType) : Except GoStr RacunType :=
  match invoice with
  | none => .error (gostr "invoice is nil")
  | some inv =>
    if inv.SpecNamj ≠ [] then .error (gostr "invoice SpecNamj must be empty")
    else if inv.ZastKod = [] then .error (gostr "invoice ZKI (Zastitni Kod Izdavatelja) must be set")
    else
      match parseDatVrijeme inv.DatVrijeme with
      | none => .error (gostr "failed to parse date")
      | some invoiceTime =>
        let chkEntity := chkEntityOf inv
        match GenerateZKI rng chkEntity invoiceTime inv.BrRac.BrOznRac inv.BrRac.OznNapUr inv.IznosUkupno with
        | .error _ => .error (gostr "failed to check ZKI")
        | .ok calculatedZKI =>
          if calculatedZKI ≠ inv.ZastKod then .error (gostr "ZKI is not valid")
          else .ok inv

/-- SetLateDelivery (part 011 lines 211-232): overwrite the stored
protection code with the supplied one and set the late-delivery flag,
and only then parse the date and validate the code by recomputation
under the current entity.  Returns the invoice as the call leaves it
together with the error, if any. -/
def SetLateDelivery (rng : Nat) (invoice : RacunType) (ZKI : GoStr) :
    RacunType × Option GoStr :=
  let inv := { invoice with ZastKod := ZKI, NakDost := true }
  match parseDatVrijeme inv.DatVrijeme with
  | none => (inv, some (gostr "failed to parse date"))
  | some invoiceTime =>
    match GenerateZKI rng inv.pointerToEntity invoiceTime inv.BrRac.BrOznRac inv.BrRac.OznNapUr inv.IznosUkupno with
    | .error _ => (inv, some (gostr "failed to generate ZKI"))
    | .ok calculatedZKI =>
      if calculatedZKI ≠ inv.ZastKod then (inv, some (gostr "ZKI is not valid"))
      else (inv, none)

/-- IhaveZKIwithExpiredCertificateEdgeCase (part 011 lines 239-277):
overwrite the stored protection code with the old one and set the
late-delivery flag, then create the old entity (the outcome of that
NewFiskalEntity call, which reads the old certificate from disk, is the
`newEntityResult` parameter), store it, parse the date and validate the
code by recomputation under the old entity. -/
def IhaveZKIwithExpiredCertificateEdgeCase (rng : Nat) (invoice : RacunType)
    (oldZKI : GoStr) (newEntityResult : Except GoStr FiskalEntity) :
    RacunType × Option GoStr :=
  let inv := { invoice with ZastKod := oldZKI, NakDost := true }
  match newEntityResult with
  | .error e => (inv, some (gostr "failed to create FiskalEntity: " ++ e))
  | .ok oldEntity =>
    let inv2 := { inv with oldEntityForOldZKI := some oldEntity }
    match parseDatVrijeme inv2.DatVrijeme with
    | none => (inv2, some (gostr "failed to parse date"))
    | some invoiceTime =>
      match GenerateZKI rng oldEntity invoiceTime inv2.BrRac.BrOznRac inv2.BrRac.OznNapUr inv2.IznosUkupno with
      | .error _ => (inv2, some (gostr "failed to generate ZKI"))
      | .ok calculatedZKI =>
        if calculatedZKI ≠ inv2.ZastKod then (inv2, some (gostr "ZKI is not valid"))
        else (inv2, none)

/-!
## Response-signature verification (ciscomm.go 427-429, part 010 193-195)
-/

/-- verifyXML: the placeholder response-signature verification.  The Go
body is a single `return true, nil`. -/
def verifyXML (fe : FiskalEntity) (xmlData : GoStr) : Bool × Option GoStr :=
  (true, none)

/-!
## Embedded CIS certificate selection (ciscert.go 163-262)
-/

/-- One embedded candidate bundle, reduced to what the selection loop in
parseAndVerifyEmbeddedCerts reads of its leaf certificate: the validity
window, the outcome of the chain verification against the bundle's own
intermediates and root, whether the leaf public key is RSA, and the key
itself (abstracted to an identifier). -/
structure CISBundle where
  notBefore : Int
  notAfter : Int
  chainVerifies : Bool
  keyIsRSA : Bool
  pubKey : Nat
deriving DecidableEq

/-- A bundle survives the loop's two checks: the leaf verifies against
the bundle pool, and the current time is inside the validity window
(Go: skip when now.Before(NotBefore) or now.After(NotAfter)). -/
def bundleSurvives (now : Int) (b : CISBundle) : Bool :=
  b.chainVerifies && !(now < b.notBefore) && !(b.notAfter < now)

/-- The selection loop: fold over the bundles in enumeration order,
replacing the running newest certificate exactly when the candidate
survives and its NotBefore is strictly later (Go:
`newestCert == nil || leafCert.NotBefore.After(newestCert.NotBefore)`). -/
def selectNewestAux (now : Int) : Option CISBundle → List CISBundle → Option CISBundle
  | acc, [] => acc
  | acc, b :: bs =>
    selectNewestAux now
      (if bundleSurvives now b then
        match acc with
        | none => some b
        | some c => if c.notBefore < b.notBefore then some b else some c
      else acc) bs

/-- The selection loop started from no candidate. -/
def selectNewest (now : Int) (bundles : List CISBundle) : Option CISBundle :=
  selectNewestAux now none bundles

/-- parseAndVerifyEmbeddedCerts after parsing: run the selection loop,
fail when nothing survived, extract the public key of the winner and
fail when it is not RSA. -/
def parseAndVerifyEmbeddedCerts (now : Int) (bundles : List CISBundle) : Except GoStr Nat :=
  match selectNewest now bundles with
  | none => .error (gostr "no suitable certificate found")
  | some c =>
    if c.keyIsRSA then .ok c.pubKey
    else .error (gostr "public key is not of type RSA")

/-!
## NewFiskalEntity (part 004 lines 517-580)
-/

/-- The environment interactions NewFiskalEntity performs, passed in as
their outcomes: the certificate-path readability probe, the embedded
CIS certificate lookup, and the PKCS#12 decode of the client
certificate. -/
structure EntityEnv where
  fileReadable : Bool
  cisCert : Except GoStr Unit
  certDecode : Except GoStr CertManager

/-- NewFiskalEntity (part 004): validate the OIB and location ID, probe
the certificate path, load the CIS certificate, decode the client
certificate, then check initialization, the OIB-against-certificate
binding and, when `chk_expired` is set, expiry; only then build the
entity. -/
def NewFiskalEntity (env : EntityEnv) (oib : GoStr) (sustavPDV : Bool) (locationID : GoStr)
    (centralizedInvoiceNumber demoMode chk_expired : Bool) : Except GoStr FiskalEntity :=
  if !ValidateOIB oib then .error (gostr "invalid OIB")
  else if !ValidateLocationID locationID then .error (gostr "invalid locationID")
  else if !env.fileReadable then .error (gostr "invalid certificate path or file not readable")
  else
    match env.cisCert with
    | .error e => .error (gostr "failed to get CIS public key and CA pool: " ++ e)
    | .ok _ =>
      match env.certDecode with
      | .error e => .error (gostr "certificate decode fail: " ++ e)
      | .ok cert =>
        if !cert.init_ok then .error (gostr "failed to initialize the certificate manager")
        else if cert.certOIB ≠ oib then .error (gostr "OIB does not match the certificate")
        else if chk_expired && cert.expired then .error (gostr "certificate expired")
        else .ok ⟨oib, sustavPDV, locationID, centralizedInvoiceNumber, demoMode, cert⟩

/-!
## Exclusive XML canonicalization

Modelled from the spec: the exclusive canonicalization transform invoked
by c14N10ExclusiveCanonicalizer.Canonicalize lives in the repository
package etreeutils (TransformExcC14n, SortedAttrs), whose source is not
under src/; only its callers are.  The definitions below follow the
spec's description of the exclusive variant (section 4.3): recursively
copy the subtree; at each element sort the attributes into canonical
order, namespace declarations first, otherwise in lexical order;
suppress namespace redeclarations identical to an already-visible
ancestor binding; strip comment nodes; recurse into children; serialize
with canonical attribute-value escaping and always explicit end tags.
-/

mutual

/-- An XML element-tree node: element with name, attributes and child
forest, or a text node, or a comment node. -/
inductive XNode where
  | elem (name : List Char) (attrs : List (List Char × List Char)) (children : XForest)
  | text (s : List Char)
  | comment (s : List Char)

/-- A list of sibling XML nodes, mutual with `XNode`. -/
inductive XForest where
  | nil
  | cons (hd : XNode) (tl : XForest)

end

/-- An XML attribute: name and value, both as character sequences. -/
abbrev Attr := List Char × List Char

/-- Whether an attribute name declares a namespace: it is `xmlns` itself
or carries the `xmlns:` prefix string. -/
def isNsDecl (name : List Char) : Bool :=
  name == "xmlns".data || name.take 6 == "xmlns:".data

/-- Sort key for canonical attribute order: namespace declarations
first, then lexical order. -/
def attrKey (a : Attr) : Nat ×ₗ ((List Char) ×ₗ (List Char)) :=
  toLex ((if isNsDecl a.1 then 0 else 1), toLex (a.1, a.2))

/-- The canonical attribute order as a relation. -/
def attrRel (a b : Attr) : Prop := attrKey a ≤ attrKey b

instance : DecidableRel attrRel :=
  fun a b => inferInstanceAs (Decidable (attrKey a ≤ attrKey b))

instance : IsTotal Attr attrRel := ⟨fun a b => le_total (attrKey a) (attrKey b)⟩

instance : IsTrans Attr attrRel := ⟨fun _ _ _ h1 h2 => le_trans h1 h2⟩

/-- The attribute sort key determines the attribute. -/
theorem attrKey_inj {a b : Attr} (h : attrKey a = attrKey b) : a = b := by
  unfold attrKey at h
  have h2 := congrArg Prod.snd (congrArg ofLex h)
  have h4 : (a.1, a.2) = (b.1, b.2) := congrArg ofLex h2
  exact Prod.ext (congrArg Prod.fst h4) (congrArg Prod.snd h4)

instance : IsAntisymm Attr attrRel :=
  ⟨fun _ _ h1 h2 => attrKey_inj (le_antisymm h1 h2)⟩

/-- Sort attributes into canonical order: namespace declarations first,
then lexical order. -/
def sortAttrs (l : List Attr) : List Attr := List.insertionSort attrRel l

/-- Look a namespace name up among the visible bindings. -/
def nsLookup : List Attr → List Char → Option (List Char)
  | [], _ => none
  | (k, v) :: rest, n => if k = n then some v else nsLookup rest n

/-- Walk the attribute list in order, suppressing namespace
redeclarations identical to an already-visible binding and recording
new bindings; returns the kept attributes and the bindings visible to
the children. -/
def filterNs (seen : List Attr) : List Attr → List Attr × List Attr
  | [] => ([], seen)
  | a :: rest =>
    if isNsDecl a.1 then
      match nsLookup seen a.1 with
      | some v =>
        if v = a.2 then filterNs seen rest
        else
          let r := filterNs ((a.1, a.2) :: seen) rest
          (a :: r.1, r.2)
      | none =>
        let r := filterNs ((a.1, a.2) :: seen) rest
        (a :: r.1, r.2)
    else
      let r := filterNs seen rest
      (a :: r.1, r.2)

mutual

/-- The exclusive canonical preparation of a node under the visible
namespace bindings `seen`: sort attributes, suppress redundant
namespace redeclarations, recurse. -/
def prepNode (seen : List Attr) : XNode → XNode
  | .elem name attrs children =>
    let fr := filterNs seen (sortAttrs attrs)
    .elem name fr.1 (prepForest fr.2 children)
  | .text s => .text s
  | .comment s => .comment s

/-- The preparation of a sibling list: strip comments, prepare the rest. -/
def prepForest (seen : List Attr) : XForest → XForest
  | .nil => .nil
  | .cons (.comment _) tl => prepForest seen tl
  | .cons (.elem n a c) tl => .cons (prepNode seen (.elem n a c)) (prepForest seen tl)
  | .cons (.text s) tl => .cons (.text s) (prepForest seen tl)

end

/-- Canonical escaping of an attribute value. -/
def escAttr : List Char → List Char
  | [] => []
  | c :: rest =>
    (if c = '&' then "&amp;".data
     else if c = '<' then "&lt;".data
     else if c = '"' then "&quot;".data
     else if c = '\t' then "&#x9;".data
     else if c = '\n' then "&#xA;".data
     else if c = '\r' then "&#xD;".data
     else [c]) ++ escAttr rest

/-- Canonical escaping of character data. -/
def escText : List Char → List Char
  | [] => []
  | c :: rest =>
    (if c = '&' then "&amp;".data
     else if c = '<' then "&lt;".data
     else if c = '>' then "&gt;".data
     else if c = '\r' then "&#xD;".data
     else [c]) ++ escText rest

/-- Render an attribute list, one leading space before each attribute. -/
def serializeAttrs (attrs : List Attr) : List Char :=
  attrs.foldr (fun a acc => ' ' :: a.1 ++ '=' :: '"' :: escAttr a.2 ++ '"' :: acc) []

mutual

/-- Serialize a prepared node: explicit open and close tags, escaped
attribute values and text. -/
def serializeNode : XNode → List Char
  | .elem name attrs children =>
    '<' :: name ++ serializeAttrs attrs ++ '>' :: serializeForest children ++
      '<' :: '/' :: name ++ ['>']
  | .text s => escText s
  | .comment s => "<!--".data ++ s ++ "-->".data

/-- Serialize a sibling list in order. -/
def serializeForest : XForest → List Char
  | .nil => []
  | .cons hd tl => serializeNode hd ++ serializeForest tl

end

/-- The whole canonicalization: prepare under no visible bindings, then
serialize. -/
def canonicalizeExcl (t : XNode) : List Char := serializeNode (prepNode [] t)

/-!
## Concrete fixtures used by counterexamples and witnesses
-/

/-- A 46-byte odd modulus (the smallest RSA size SignPKCS1v15 accepts
for SHA-1), 2 to the 368th minus 9. -/
def testModulus : Nat := 601226901190101306339707032778070279008174732520529886901066488712245510429339761526706943586500787976175353847

/-- A concrete signing key over `testModulus` with exponent 3. -/
def testKey : RSAKey := ⟨testModulus, 3⟩

/-- A loaded certificate manager for the OIB 65049901548 (the taxpayer
ID of the spec's worked example), not expired. -/
def testCert : CertManager := ⟨testKey, gostr "65049901548", true, false⟩

/-- A fiscal entity at location TEST3 holding `testCert`. -/
def testEntity : FiskalEntity := ⟨gostr "65049901548", true, gostr "TEST3", false, true, testCert⟩

/-- The issue time of the spec's worked example, 17.05.2024 16:00:38. -/
def testTime : DateTime := ⟨2024, 5, 17, 16, 0, 38⟩

/-- A concrete invoice for `testEntity`: number 13 on device 1 at
TEST3, total 90.00, carrying the protection code GenerateZKI computes
for exactly these fields under `testKey`. -/
def testInvoice : RacunType :=
  ⟨gostr "65049901548", true, gostr "17.05.2024T16:00:38", gostr "N",
    ⟨13, gostr "TEST3", 1⟩, gostr "90.00", gostr "G", gostr "65049901548",
    gostr "3a75922508e220c6cca30a2cf4c3f08d", false, [], testEntity, none⟩

/-!
## Helper lemmas
-/

/-- Unfolding of hexEncode on a cons cell. -/
theorem hexEncode_cons (b : Nat) (l : List Nat) :
    hexEncode (b :: l) = hexDigitChar (b / 16 % 16) :: hexDigitChar (b % 16) :: hexEncode l := rfl

/-- Every character hexEncode emits is a lowercase hex character. -/
theorem hexEncode_all_lower (l : List Nat) : (hexEncode l).all isLowerHexByte = true := by
  induction l with
  | nil => rfl
  | cons b l ih =>
    have hsmall : ∀ m, m < 16 → isLowerHexByte (hexDigitChar m) = true := by decide
    simp only [hexEncode_cons, List.all_cons, ih, Bool.and_true]
    rw [hsmall _ (Nat.mod_lt _ (by decide)), hsmall _ (Nat.mod_lt _ (by decide))]
    rfl

/-- hexEncode yields two characters per byte. -/
theorem hexEncode_length (l : List Nat) : (hexEncode l).length = 2 * l.length := by
  induction l with
  | nil => rfl
  | cons b l ih => simp only [hexEncode_cons, List.length_cons, ih]; omega

/-- The MD5 digest is the little-endian rendering of a four-word state. -/
theorem md5_shape (msg : List Nat) : ∃ a b c d, md5 msg = le4 a ++ le4 b ++ le4 c ++ le4 d :=
  let st := md5Chunks (1732584193, 4023233417, 2562383102, 271733878)
    (chunks16 (bytesToWordsLE (mdPad msg (le8 (msg.length * 8)))))
  ⟨st.1, st.2.1, st.2.2.1, st.2.2.2, rfl⟩

/-- The MD5 digest always has 16 bytes. -/
theorem md5_length (msg : List Nat) : (md5 msg).length = 16 := by
  obtain ⟨a, b, c, d, h⟩ := md5_shape msg
  rw [h]
  simp [le4]

/-- The hex encoding of an MD5 digest passes the repository's own ZKI
format validator: 32 lowercase hexadecimal characters. -/
theorem validateZKI_hexEncode_md5 (msg : List Nat) : ValidateZKI (hexEncode (md5 msg)) = true := by
  unfold ValidateZKI
  rw [hexEncode_length, md5_length, hexEncode_all_lower]
  rfl

/-- On success GenerateZKI returns the hex encoding of the MD5 digest of
some signature value. -/
theorem generateZKI_ok_shape {rng : Nat} {entity : FiskalEntity} {t : DateTime}
    {invNum devID : Nat} {total : GoStr} {z : GoStr}
    (h : GenerateZKI rng entity t invNum devID total = .ok z) :
    ∃ sig, z = hexEncode (md5 sig) := by
  unfold GenerateZKI at h
  by_cases hv : IsValidCurrencyFormat total
  · simp only [hv, Bool.not_true, Bool.false_eq_true, if_false] at h
    cases hs : signPKCS1v15SHA1 rng entity.cert.privateKey
        (sha1 (entity.oib ++ formatTimeSpace t ++ natToDec invNum ++
          entity.locationID ++ natToDec devID ++ total)) with
    | error e => rw [hs] at h; cases h
    | ok sig => rw [hs] at h; cases h; exact ⟨sig, rfl⟩
  · simp only [Bool.not_eq_true] at hv
    simp only [hv, Bool.not_false, if_true] at h
    cases h

/-!
## Claim C4
-/

/-- Claim C4: for every input byte sequence, verifyXML returns success
(true with no error) without examining the input; it is a stub that
always reports success. -/
theorem C4_verifyXML_always_succeeds (fe : FiskalEntity) (xmlData : GoStr) :
    verifyXML fe xmlData = (true, none) := rfl

/-!
## Claim C2
-/

/-- Claim C2: for a fixed key and fixed six inputs, any two invocations
of GenerateZKI (with arbitrary randomness sources) return the same
output, and a successful output is a 32-character lowercase hexadecimal
string (the repository's own ValidateZKI predicate); the randomness
source passed to the signing primitive does not enter the result. -/
theorem C2_generateZKI_deterministic_32_hex (rng rng' : Nat) (entity : FiskalEntity)
    (t : DateTime) (invNum devID : Nat) (total : GoStr) :
    GenerateZKI rng entity t invNum devID total = GenerateZKI rng' entity t invNum devID total ∧
    ∀ z, GenerateZKI rng entity t invNum devID total = .ok z → ValidateZKI z = true := by
  refine ⟨rfl, fun z hz => ?_⟩
  obtain ⟨sig, rfl⟩ := generateZKI_ok_shape hz
  exact validateZKI_hexEncode_md5 sig

/-- Witness for C2 at the concrete fixture: the fixture run succeeds
with this 32-character lowercase hex value. -/
theorem C2_generateZKI_deterministic_32_hex_witness :
    ValidateZKI (gostr "3a75922508e220c6cca30a2cf4c3f08d") = true :=
  (C2_generateZKI_deterministic_32_hex 0 1 testEntity testTime 13 1 (gostr "90.00")).2
    (gostr "3a75922508e220c6cca30a2cf4c3f08d") (by decide)

/-!
## Claim C1
-/

/-- Counterexample to claim C1 as stated: at a concrete valid input the
value GenerateZKI computes differs from the claim's pipeline, which
formats the timestamp with a literal T between date and time; the code
uses the layout 02.01.2006 15:04:05 with a space. -/
theorem C1_counterexample :
    IsValidCurrencyFormat (gostr "90.00") = true ∧
    GenerateZKI 0 testEntity testTime 13 1 (gostr "90.00") ≠
      zkiOfGuardCode 0 testEntity.cert.privateKey
        (guardCodeWithT testEntity testTime 13 1 (gostr "90.00")) := by
  constructor
  · decide
  · decide

/-- Claim C1 amended: GenerateZKI computes the fingerprint by
concatenating, with no separators and in this order, the taxpayer ID,
the timestamp formatted as day.month.year, a space (not a literal T),
and hour:minute:second with two-digit fields, the invoice number, the
location ID, the device ID and the total amount; SHA-1 hashing the
concatenation; signing with PKCS#1 v1.5 over SHA-1; MD5 hashing the
signature; and hex-encoding that digest. -/
theorem C1_generateZKI_pipeline (rng : Nat) (entity : FiskalEntity) (t : DateTime)
    (invNum devID : Nat) (total : GoStr) (h : IsValidCurrencyFormat total = true) :
    GenerateZKI rng entity t invNum devID total =
      zkiOfGuardCode rng entity.cert.privateKey (guardCodeSpaced entity t invNum devID total) := by
  unfold GenerateZKI zkiOfGuardCode guardCodeSpaced
  simp only [h, Bool.not_true, Bool.false_eq_true, if_false]

/-- Witness for the amended C1 at the concrete fixture. -/
theorem C1_generateZKI_pipeline_witness :
    GenerateZKI 0 testEntity testTime 13 1 (gostr "90.00") =
      zkiOfGuardCode 0 testEntity.cert.privateKey
        (guardCodeSpaced testEntity testTime 13 1 (gostr "90.00")) :=
  C1_generateZKI_pipeline 0 testEntity testTime 13 1 (gostr "90.00") (by decide)

/-!
## Claim C8
-/

/-- The digit run at the front of a digits-dot-digits string is its
takeWhile part. -/
theorem takeWhile_digits_append (w : List Nat) (r : List Nat)
    (hw : ∀ c ∈ w, isDigitByte c = true) :
    (w ++ 46 :: r).takeWhile isDigitByte = w ∧ (w ++ 46 :: r).dropWhile isDigitByte = 46 :: r := by
  induction w with
  | nil => exact ⟨rfl, rfl⟩
  | cons c w ih =>
    have hc : isDigitByte c = true := hw c (List.mem_cons_self c w)
    have ih2 := ih (fun x hx => hw x (List.mem_cons_of_mem c hx))
    simp only [List.cons_append, List.takeWhile_cons, List.dropWhile_cons, hc, if_true]
    exact ⟨by rw [ih2.1], by rw [ih2.2]⟩

/-- Claim C8: IsValidCurrencyFormat accepts exactly the strings made of
one or more digits, a dot, and exactly two digits; the spec's positive
and negative examples behave as listed; and GenerateZKI rejects any
total amount failing the format with an error, before any cryptographic
work. -/
theorem C8_currency_format :
    (∀ s : GoStr, IsValidCurrencyFormat s = true ↔
      ∃ w a b, s = w ++ [46, a, b] ∧ w ≠ [] ∧ (∀ c ∈ w, isDigitByte c = true) ∧
        isDigitByte a = true ∧ isDigitByte b = true) ∧
    IsValidCurrencyFormat (gostr "100.00") = true ∧
    IsValidCurrencyFormat (gostr "0.00") = true ∧
    IsValidCurrencyFormat (gostr "134876348653847632687.99") = true ∧
    IsValidCurrencyFormat (gostr "100") = false ∧
    IsValidCurrencyFormat (gostr "100.00 0") = false ∧
    IsValidCurrencyFormat (gostr "100,00") = false ∧
    IsValidCurrencyFormat (gostr "100.001") = false ∧
    IsValidCurrencyFormat (gostr "-100.00") = false ∧
    IsValidCurrencyFormat (gostr "abc.23") = false ∧
    ∀ (rng : Nat) (entity : FiskalEntity) (t : DateTime) (invNum devID : Nat) (total : GoStr),
      IsValidCurrencyFormat total = false →
      GenerateZKI rng entity t invNum devID total =
        .error (gostr "invalid totalAmount format; expected a string with 2 decimal places (e.g., 100.00)") := by
  refine ⟨fun s => ⟨fun h => ?_, fun hex => ?_⟩,
    by decide, by decide, by decide, by decide, by decide, by decide, by decide, by decide,
    by decide, fun rng entity t invNum devID total hv => ?_⟩
  · unfold IsValidCurrencyFormat at h
    rcases hr : s.dropWhile isDigitByte with _ | ⟨dot, r2⟩ <;> rw [hr] at h
    · simp at h
    · rcases r2 with _ | ⟨a, r3⟩
      · simp at h
      · rcases r3 with _ | ⟨b, r4⟩
        · simp at h
        · rcases r4 with _ | ⟨x, r5⟩
          · simp only [Bool.and_eq_true, beq_iff_eq, Bool.not_eq_true'] at h
            refine ⟨s.takeWhile isDigitByte, a, b, ?_, ?_, ?_, h.2.1.2, h.2.2⟩
            · rw [← h.2.1.1]
              conv_lhs => rw [← List.takeWhile_append_dropWhile (p := isDigitByte) (l := s)]
              rw [hr]
            · intro hemp
              rw [hemp] at h
              simp at h
            · exact fun c hc => List.mem_takeWhile_imp hc
          · simp at h
  · obtain ⟨w, a, b, hs, hne, hw, ha, hb⟩ := hex
    subst hs
    have hsplit := takeWhile_digits_append w [a, b] hw
    unfold IsValidCurrencyFormat
    have harr : w ++ [46, a, b] = w ++ 46 :: [a, b] := rfl
    rw [harr, hsplit.1, hsplit.2]
    simp only [ha, hb, Bool.and_true, beq_self_eq_true, Bool.and_self]
    cases w with
    | nil => exact absurd rfl hne
    | cons c w => rfl
  · unfold GenerateZKI
    simp [hv]

/-- Witness for C8 at concrete inputs: the characterization holds for
the string 7.25 and GenerateZKI rejects the malformed total 1,00. -/
theorem C8_currency_format_witness :
    IsValidCurrencyFormat (gostr "7.25") = true ∧
    GenerateZKI 0 testEntity testTime 13 1 (gostr "1,00") =
      .error (gostr "invalid totalAmount format; expected a string with 2 decimal places (e.g., 100.00)") :=
  ⟨(C8_currency_format.1 (gostr "7.25")).2
      ⟨[55], 50, 53, by decide, by decide, by decide, by decide, by decide⟩,
    C8_currency_format.2.2.2.2.2.2.2.2.2.2 0 testEntity testTime 13 1 (gostr "1,00") (by decide)⟩

/-!
## Claim C3
-/

/-- Claim C3: InvoiceRequest reaches the network only when all local
preconditions hold — the invoice is non-nil, SpecNamj is empty, the
stored ZastKod is non-empty, the date parses, and the ZKI recomputed
under the old entity's key when one was set (else the current entity's)
is exactly the stored one; and a recomputation mismatch is returned as
the hard validation error ZKI is not valid. -/
theorem C3_invoice_request_preconditions :
    (∀ (rng : Nat) (invoice : Option RacunType) (inv : RacunType),
      InvoiceRequestLocal rng invoice = .ok inv →
      invoice = some inv ∧ inv.SpecNamj = [] ∧ inv.ZastKod ≠ [] ∧
      ∃ t, parseDatVrijeme inv.DatVrijeme = some t ∧
        GenerateZKI rng (chkEntityOf inv) t inv.BrRac.BrOznRac inv.BrRac.OznNapUr
          inv.IznosUkupno = .ok inv.ZastKod) ∧
    (∀ (rng : Nat) (inv : RacunType) (t : DateTime) (z : GoStr),
      inv.SpecNamj = [] → inv.ZastKod ≠ [] →
      parseDatVrijeme inv.DatVrijeme = some t →
      GenerateZKI rng (chkEntityOf inv) t inv.BrRac.BrOznRac inv.BrRac.OznNapUr
        inv.IznosUkupno = .ok z →
      z ≠ inv.ZastKod →
      InvoiceRequestLocal rng (some inv) = .error (gostr "ZKI is not valid")) := by
  constructor
  · intro rng invoice inv h
    cases invoice with
    | none => simp [InvoiceRequestLocal] at h
    | some inv' =>
      unfold InvoiceRequestLocal at h
      dsimp only at h
      by_cases h1 : inv'.SpecNamj = []
      · rw [if_neg (fun hn => hn h1)] at h
        by_cases h2 : inv'.ZastKod = []
        · rw [if_pos h2] at h
          exact absurd h (by simp)
        · rw [if_neg h2] at h
          cases hp : parseDatVrijeme inv'.DatVrijeme with
          | none => rw [hp] at h; exact absurd h (by simp)
          | some t =>
            rw [hp] at h
            cases hz : GenerateZKI rng (chkEntityOf inv') t inv'.BrRac.BrOznRac
                inv'.BrRac.OznNapUr inv'.IznosUkupno with
            | error e =>
              simp only [hz] at h
              exact Except.noConfusion h
            | ok z =>
              simp only [hz] at h
              by_cases h4 : z ≠ inv'.ZastKod
              · rw [if_pos h4] at h
                exact absurd h (by simp)
              · rw [if_neg h4] at h
                obtain rfl := Except.ok.inj h
                refine ⟨rfl, h1, h2, t, hp, ?_⟩
                rw [← not_ne_iff.mp h4]
                exact hz
      · rw [if_pos h1] at h
        exact absurd h (by simp)
  · intro rng inv t z h1 h2 hp hz hne
    unfold InvoiceRequestLocal
    dsimp only
    rw [if_neg (fun hn => hn h1), if_neg h2]
    simp only [hp, hz]
    rw [if_pos hne]

/-- Witness for C3: a concrete invoice whose stored ZKI matches the
recomputation passes the local phase, so the preconditions hold at it. -/
theorem C3_invoice_request_preconditions_witness :
    (some testInvoice : Option RacunType) = some testInvoice ∧
    testInvoice.SpecNamj = [] ∧ testInvoice.ZastKod ≠ [] ∧
    ∃ t, parseDatVrijeme testInvoice.DatVrijeme = some t ∧
      GenerateZKI 0 (chkEntityOf testInvoice) t testInvoice.BrRac.BrOznRac
        testInvoice.BrRac.OznNapUr testInvoice.IznosUkupno = .ok testInvoice.ZastKod :=
  C3_invoice_request_preconditions.1 0 (some testInvoice) testInvoice (by decide)

/-!
## Claim C10
-/

/-- The invoice SetLateDelivery returns is always the input with the
protection code overwritten and the late-delivery flag set, whatever
the validation outcome. -/
theorem setLateDelivery_fst (rng : Nat) (inv : RacunType) (zki : GoStr) :
    (SetLateDelivery rng inv zki).1 = { inv with ZastKod := zki, NakDost := true } := by
  unfold SetLateDelivery
  dsimp only
  split
  · rfl
  · split
    · rfl
    · split <;> rfl

/-- The invoice IhaveZKIwithExpiredCertificateEdgeCase returns always
carries the supplied old protection code and the late-delivery flag. -/
theorem edgeCase_fst_fields (rng : Nat) (inv : RacunType) (zki : GoStr)
    (entRes : Except GoStr FiskalEntity) :
    (IhaveZKIwithExpiredCertificateEdgeCase rng inv zki entRes).1.ZastKod = zki ∧
    (IhaveZKIwithExpiredCertificateEdgeCase rng inv zki entRes).1.NakDost = true := by
  unfold IhaveZKIwithExpiredCertificateEdgeCase
  cases entRes with
  | error e => exact ⟨rfl, rfl⟩
  | ok oldEntity =>
    constructor <;>
      (dsimp only; split
       · rfl
       · split
         · rfl
         · split <;> rfl)

/-- Claim C10: SetLateDelivery and IhaveZKIwithExpiredCertificateEdgeCase
first overwrite the stored protection code with the supplied value and
set the late-delivery flag, and only then validate; on a recomputation
mismatch both return an error while the invoice remains mutated. -/
theorem C10_mutation_before_validation :
    (∀ (rng : Nat) (inv : RacunType) (zki : GoStr),
      (SetLateDelivery rng inv zki).1.ZastKod = zki ∧
      (SetLateDelivery rng inv zki).1.NakDost = true) ∧
    (∀ (rng : Nat) (inv : RacunType) (zki : GoStr) (t : DateTime) (z : GoStr),
      parseDatVrijeme inv.DatVrijeme = some t →
      GenerateZKI rng inv.pointerToEntity t inv.BrRac.BrOznRac inv.BrRac.OznNapUr
        inv.IznosUkupno = .ok z →
      z ≠ zki →
      SetLateDelivery rng inv zki =
        ({ inv with ZastKod := zki, NakDost := true }, some (gostr "ZKI is not valid"))) ∧
    (∀ (rng : Nat) (inv : RacunType) (zki : GoStr) (entRes : Except GoStr FiskalEntity),
      (IhaveZKIwithExpiredCertificateEdgeCase rng inv zki entRes).1.ZastKod = zki ∧
      (IhaveZKIwithExpiredCertificateEdgeCase rng inv zki entRes).1.NakDost = true) ∧
    (∀ (rng : Nat) (inv : RacunType) (zki : GoStr) (oldEntity : FiskalEntity)
        (t : DateTime) (z : GoStr),
      parseDatVrijeme inv.DatVrijeme = some t →
      GenerateZKI rng oldEntity t inv.BrRac.BrOznRac inv.BrRac.OznNapUr
        inv.IznosUkupno = .ok z →
      z ≠ zki →
      IhaveZKIwithExpiredCertificateEdgeCase rng inv zki (.ok oldEntity) =
        ({ inv with ZastKod := zki, NakDost := true, oldEntityForOldZKI := some oldEntity },
          some (gostr "ZKI is not valid"))) := by
  refine ⟨fun rng inv zki => ?_, fun rng inv zki t z hp hz hne => ?_,
    fun rng inv zki entRes => edgeCase_fst_fields rng inv zki entRes,
    fun rng inv zki oldEntity t z hp hz hne => ?_⟩
  · rw [setLateDelivery_fst]
    exact ⟨rfl, rfl⟩
  · unfold SetLateDelivery
    simp only [hp, hz]
    rw [if_pos hne]
  · unfold IhaveZKIwithExpiredCertificateEdgeCase
    simp only [hp, hz]
    rw [if_pos hne]

/-- Witness for C10 at a concrete mismatch: the stored code is replaced
by the bogus supplied one, the flag is set, and the call errors. -/
theorem C10_mutation_before_validation_witness :
    SetLateDelivery 0 testInvoice (gostr "00000000000000000000000000000000") =
      ({ testInvoice with ZastKod := gostr "00000000000000000000000000000000", NakDost := true },
        some (gostr "ZKI is not valid")) :=
  C10_mutation_before_validation.2.1 0 testInvoice
    (gostr "00000000000000000000000000000000") testTime
    (gostr "3a75922508e220c6cca30a2cf4c3f08d") (by decide) (by decide) (by decide)

/-!
## Claim C6
-/

/-- Claim C6: NewFiskalEntity returns an entity only when the supplied
taxpayer ID passes the Mod 11,10 checksum and equals the ID extracted
from the loaded certificate, and, when strict expiry checking is
requested, the certificate is not expired; the returned entity carries
exactly those validated values, so no half-valid entity is returned. -/
theorem C6_entity_constructed_only_when_valid (env : EntityEnv) (oib : GoStr)
    (sustavPDV : Bool) (locationID : GoStr) (cen dem chk : Bool) (e : FiskalEntity)
    (h : NewFiskalEntity env oib sustavPDV locationID cen dem chk = .ok e) :
    ValidateOIB oib = true ∧ e.cert.certOIB = oib ∧
    (chk = true → e.cert.expired = false) ∧ e.oib = oib := by
  unfold NewFiskalEntity at h
  split at h
  · exact absurd h (by simp)
  next h1 =>
    split at h
    · exact absurd h (by simp)
    next h2 =>
      split at h
      · exact absurd h (by simp)
      next h3 =>
        split at h
        · exact absurd h (by simp)
        next u hc =>
          split at h
          · exact absurd h (by simp)
          next cert hd =>
            split at h
            · exact absurd h (by simp)
            next h5 =>
              split at h
              · exact absurd h (by simp)
              next h6 =>
                split at h
                · exact absurd h (by simp)
                next h7 =>
                  obtain rfl := Except.ok.inj h
                  refine ⟨by simpa using h1, not_ne_iff.mp h6, fun hchk => ?_, rfl⟩
                  dsimp only
                  cases hce : cert.expired with
                  | false => rfl
                  | true => exact absurd (by simp [hchk, hce]) h7

/-- Witness for C6 at a concrete environment: the entity built from the
matching certificate carries the validated values. -/
theorem C6_entity_constructed_only_when_valid_witness :
    ValidateOIB (gostr "65049901548") = true ∧
    testEntity.cert.certOIB = gostr "65049901548" ∧
    (true = true → testEntity.cert.expired = false) ∧
    testEntity.oib = gostr "65049901548" :=
  C6_entity_constructed_only_when_valid ⟨true, .ok (), .ok testCert⟩
    (gostr "65049901548") true (gostr "TEST3") false true true testEntity (by decide)

/-!
## Claim C5
-/

/-- The defining equation of the selection loop on a cons cell. -/
theorem selAux_cons (now : Int) (acc : Option CISBundle) (b : CISBundle) (bs : List CISBundle) :
    selectNewestAux now acc (b :: bs) =
      selectNewestAux now
        (if bundleSurvives now b then
          match acc with
          | none => some b
          | some c => if c.notBefore < b.notBefore then some b else some c
        else acc) bs := rfl

/-- The defining equation of the selection loop on the empty list. -/
theorem selAux_nil (now : Int) (acc : Option CISBundle) :
    selectNewestAux now acc [] = acc := rfl

/-- The selection loop yields nothing exactly when it started with
nothing and no bundle survives. -/
theorem selAux_none_iff (now : Int) :
    ∀ (bs : List CISBundle) (acc : Option CISBundle),
      selectNewestAux now acc bs = none ↔
        acc = none ∧ ∀ b ∈ bs, bundleSurvives now b = false := by
  intro bs
  induction bs with
  | nil =>
    intro acc
    rw [selAux_nil]
    simp
  | cons b bs ih =>
    intro acc
    rw [selAux_cons]
    cases acc with
    | none =>
      by_cases hs : bundleSurvives now b
      · rw [if_pos hs]
        dsimp only
        rw [ih]
        constructor
        · rintro ⟨hc, -⟩; cases hc
        · rintro ⟨-, hall⟩
          exact absurd (hall b (List.mem_cons_self b bs)) (by simp [hs])
      · rw [if_neg hs]
        rw [ih]
        constructor
        · rintro ⟨-, hall⟩
          refine ⟨rfl, fun x hx => ?_⟩
          rcases List.mem_cons.mp hx with rfl | hx
          · simpa using hs
          · exact hall x hx
        · rintro ⟨-, hall⟩
          exact ⟨rfl, fun x hx => hall x (List.mem_cons_of_mem b hx)⟩
    | some c =>
      rw [ih]
      constructor
      · rintro ⟨hc, -⟩
        by_cases hs : bundleSurvives now b
        · rw [if_pos hs] at hc
          dsimp only at hc
          by_cases hlt : c.notBefore < b.notBefore
          · rw [if_pos hlt] at hc; cases hc
          · rw [if_neg hlt] at hc; cases hc
        · rw [if_neg hs] at hc; cases hc
      · rintro ⟨hc, -⟩; cases hc

/-- What the selection loop's answer satisfies: it came from the
accumulator or is a surviving member of the list, it dominates the
NotBefore of every surviving member, and it dominates the accumulator. -/
theorem selAux_some (now : Int) :
    ∀ (bs : List CISBundle) (acc : Option CISBundle) (c : CISBundle),
      selectNewestAux now acc bs = some c →
      (acc = some c ∨ (c ∈ bs ∧ bundleSurvives now c = true)) ∧
      (∀ b ∈ bs, bundleSurvives now b = true → b.notBefore ≤ c.notBefore) ∧
      (∀ a, acc = some a → a.notBefore ≤ c.notBefore) := by
  intro bs
  induction bs with
  | nil =>
    intro acc c h
    rw [selAux_nil] at h
    refine ⟨Or.inl h, by simp, fun a ha => ?_⟩
    rw [h] at ha
    obtain rfl := Option.some.inj ha
    exact le_refl _
  | cons b bs ih =>
    intro acc c h
    rw [selAux_cons] at h
    by_cases hs : bundleSurvives now b
    · rw [if_pos hs] at h
      cases acc with
      | none =>
        dsimp only at h
        obtain ⟨h1, h2, h3⟩ := ih _ c h
        have hbc : b.notBefore ≤ c.notBefore := h3 b rfl
        refine ⟨?_, fun x hx hxs => ?_, by simp⟩
        · rcases h1 with hbc' | ⟨hm, hss⟩
          · obtain rfl := Option.some.inj hbc'
            exact Or.inr ⟨List.mem_cons_self _ _, hs⟩
          · exact Or.inr ⟨List.mem_cons_of_mem b hm, hss⟩
        · rcases List.mem_cons.mp hx with rfl | hx
          · exact hbc
          · exact h2 x hx hxs
      | some a0 =>
        dsimp only at h
        by_cases hlt : a0.notBefore < b.notBefore
        · rw [if_pos hlt] at h
          obtain ⟨h1, h2, h3⟩ := ih _ c h
          have hbc : b.notBefore ≤ c.notBefore := h3 b rfl
          refine ⟨?_, fun x hx hxs => ?_, fun a ha => ?_⟩
          · rcases h1 with hbc' | ⟨hm, hss⟩
            · obtain rfl := Option.some.inj hbc'
              exact Or.inr ⟨List.mem_cons_self _ _, hs⟩
            · exact Or.inr ⟨List.mem_cons_of_mem b hm, hss⟩
          · rcases List.mem_cons.mp hx with rfl | hx
            · exact hbc
            · exact h2 x hx hxs
          · obtain rfl := Option.some.inj ha
            exact le_trans (le_of_lt hlt) hbc
        · rw [if_neg hlt] at h
          obtain ⟨h1, h2, h3⟩ := ih _ c h
          have hac : a0.notBefore ≤ c.notBefore := h3 a0 rfl
          refine ⟨?_, fun x hx hxs => ?_, fun a ha => ?_⟩
          · rcases h1 with ha0c | ⟨hm, hss⟩
            · exact Or.inl ha0c
            · exact Or.inr ⟨List.mem_cons_of_mem b hm, hss⟩
          · rcases List.mem_cons.mp hx with rfl | hx
            · exact le_trans (Int.not_lt.mp hlt) hac
            · exact h2 x hx hxs
          · obtain rfl := Option.some.inj ha
            exact hac
    · rw [if_neg hs] at h
      obtain ⟨h1, h2, h3⟩ := ih _ c h
      refine ⟨?_, fun x hx hxs => ?_, h3⟩
      · rcases h1 with hac | ⟨hm, hss⟩
        · exact Or.inl hac
        · exact Or.inr ⟨List.mem_cons_of_mem b hm, hss⟩
      · rcases List.mem_cons.mp hx with rfl | hx
        · exact absurd hxs (by simp [hs])
        · exact h2 x hx hxs

/-- Counterexample to claim C5 as stated: two surviving bundles tied on
NotBefore but carrying different keys; the selection keeps the first
enumerated one, so the two enumeration orders of the same candidate set
return different keys, contradicting order independence. -/
theorem C5_counterexample :
    parseAndVerifyEmbeddedCerts 5 [⟨0, 10, true, true, 1⟩, ⟨0, 10, true, true, 2⟩] = .ok 1 ∧
    parseAndVerifyEmbeddedCerts 5 [⟨0, 10, true, true, 2⟩, ⟨0, 10, true, true, 1⟩] = .ok 2 := by
  constructor
  · decide
  · decide

/-- Claim C5 amended: the selection returns nothing exactly when no
candidate passes chain verification inside its validity window; a
returned candidate is a surviving member whose NotBefore is maximal
among survivors (ties keep the earliest enumerated); two enumeration
orders agree whenever only one survivor attains the maximal NotBefore;
and, when every candidate key is RSA, the operation succeeds if and
only if some candidate survives. -/
theorem C5_trust_anchor_selection :
    (∀ (now : Int) (bs : List CISBundle),
      selectNewest now bs = none ↔ ∀ b ∈ bs, bundleSurvives now b = false) ∧
    (∀ (now : Int) (bs : List CISBundle) (c : CISBundle),
      selectNewest now bs = some c →
      c ∈ bs ∧ bundleSurvives now c = true ∧
        ∀ b ∈ bs, bundleSurvives now b = true → b.notBefore ≤ c.notBefore) ∧
    (∀ (now : Int) (bs bs' : List CISBundle) (c c' : CISBundle),
      bs.Perm bs' →
      selectNewest now bs = some c → selectNewest now bs' = some c' →
      (∀ b ∈ bs, bundleSurvives now b = true → b.notBefore = c.notBefore → b = c) →
      c' = c) ∧
    (∀ (now : Int) (bs : List CISBundle),
      (∀ b ∈ bs, b.keyIsRSA = true) →
      ((∃ k, parseAndVerifyEmbeddedCerts now bs = .ok k) ↔
        ∃ b ∈ bs, bundleSurvives now b = true)) := by
  have hsome : ∀ (now : Int) (bs : List CISBundle) (c : CISBundle),
      selectNewest now bs = some c →
      c ∈ bs ∧ bundleSurvives now c = true ∧
        ∀ b ∈ bs, bundleSurvives now b = true → b.notBefore ≤ c.notBefore := by
    intro now bs c h
    obtain ⟨h1, h2, -⟩ := selAux_some now bs none c h
    rcases h1 with hc | ⟨hm, hss⟩
    · cases hc
    · exact ⟨hm, hss, h2⟩
  refine ⟨fun now bs => ?_, hsome, fun now bs bs' c c' hperm hc hc' huniq => ?_,
    fun now bs hrsa => ⟨fun ⟨k, hk⟩ => ?_, fun ⟨b, hb, hbs⟩ => ?_⟩⟩
  · rw [selectNewest, selAux_none_iff]
    simp
  · obtain ⟨hm, hss, hmax⟩ := hsome now bs c hc
    obtain ⟨hm', hss', hmax'⟩ := hsome now bs' c' hc'
    have hm'' : c' ∈ bs := (hperm.mem_iff).mpr hm'
    have h1 : c'.notBefore ≤ c.notBefore := hmax c' hm'' hss'
    have h2 : c.notBefore ≤ c'.notBefore := hmax' c ((hperm.mem_iff).mp hm) hss
    exact huniq c' hm'' hss' (le_antisymm h1 h2)
  · unfold parseAndVerifyEmbeddedCerts at hk
    cases hsel : selectNewest now bs with
    | none => rw [hsel] at hk; cases hk
    | some c =>
      rw [hsel] at hk
      obtain ⟨hm, hss, -⟩ := hsome now bs c hsel
      exact ⟨c, hm, hss⟩
  · unfold parseAndVerifyEmbeddedCerts
    cases hsel : selectNewest now bs with
    | none =>
      rw [selectNewest, selAux_none_iff] at hsel
      exact absurd hbs (by simp [hsel.2 b hb])
    | some c =>
      obtain ⟨hm, -, -⟩ := hsome now bs c hsel
      dsimp only
      rw [if_pos (hrsa c hm)]
      exact ⟨c.pubKey, rfl⟩

/-- Witness for C5 at a concrete list: a single surviving bundle is
selected, survives and is maximal. -/
theorem C5_trust_anchor_selection_witness :
    (⟨0, 10, true, true, 7⟩ : CISBundle) ∈ [(⟨0, 10, true, true, 7⟩ : CISBundle)] ∧
    bundleSurvives 5 ⟨0, 10, true, true, 7⟩ = true ∧
    ∀ b ∈ [(⟨0, 10, true, true, 7⟩ : CISBundle)], bundleSurvives 5 b = true →
      b.notBefore ≤ (⟨0, 10, true, true, 7⟩ : CISBundle).notBefore :=
  C5_trust_anchor_selection.2.1 5 [⟨0, 10, true, true, 7⟩] ⟨0, 10, true, true, 7⟩ (by decide)

/-!
## Claim C7
-/

/-- The Mod 11,10 check digit over a list of digit values, as the spec
describes it: thread the state through the digits starting at 10, then
take 11 minus the final state, modulo 10. -/
def mod1110CheckDigit (ds : List Nat) : Nat := (11 - List.foldl mod1110Step 10 ds) % 10

/-- An ASCII digit byte lies between 48 and 57. -/
theorem isDigitByte_bounds {b : Nat} (h : isDigitByte b = true) : 48 ≤ b ∧ b ≤ 57 := by
  unfold isDigitByte at h
  simp only [Bool.and_eq_true, decide_eq_true_eq] at h
  exact h

/-- On a digit byte the wrapped Go conversion equals plain subtraction. -/
theorem goDigit_of_digit {b : Nat} (h : isDigitByte b = true) : goDigit b = b - 48 := by
  obtain ⟨h1, h2⟩ := isDigitByte_bounds h
  unfold goDigit
  omega

/-- A digit byte converts to a value at most 9. -/
theorem goDigit_le9_of_digit {b : Nat} (h : isDigitByte b = true) : goDigit b ≤ 9 := by
  obtain ⟨h1, h2⟩ := isDigitByte_bounds h
  rw [goDigit_of_digit h]
  omega

/-- Every non-digit byte converts to a value above 9: the Go loop's
bound check recognizes exactly the digit bytes. -/
theorem goDigit_gt9_of_nondigit : ∀ b < 256, isDigitByte b = false → 9 < goDigit b := by decide

/-- The conversion is injective on digit bytes. -/
theorem goDigit_inj_digit {b b' : Nat} (hb : isDigitByte b = true) (hb' : isDigitByte b' = true)
    (hne : b ≠ b') : goDigit b ≠ goDigit b' := by
  obtain ⟨h1, h2⟩ := isDigitByte_bounds hb
  obtain ⟨h1', h2'⟩ := isDigitByte_bounds hb'
  rw [goDigit_of_digit hb, goDigit_of_digit hb']
  omega

/-- The Mod 11,10 state stays in 1..10. -/
theorem step_range : ∀ r < 11, 1 ≤ r → ∀ d < 10,
    1 ≤ mod1110Step r d ∧ mod1110Step r d ≤ 10 := by decide

/-- Exhaustive form of the state injectivity of one Mod 11,10 step. -/
theorem step_inj_state_aux : ∀ r < 11, ∀ r' < 11, ∀ d < 10,
    r < 1 ∨ r' < 1 ∨ r = r' ∨ mod1110Step r d ≠ mod1110Step r' d := by decide

/-- One Mod 11,10 step is injective in the state. -/
theorem step_inj_state {r r' d : Nat} (hr : 1 ≤ r) (hr10 : r ≤ 10) (hr' : 1 ≤ r')
    (hr10' : r' ≤ 10) (hd : d ≤ 9) (hne : r ≠ r') :
    mod1110Step r d ≠ mod1110Step r' d := by
  rcases step_inj_state_aux r (by omega) r' (by omega) d (by omega) with h | h | h | h
  · omega
  · omega
  · exact absurd h hne
  · exact h

/-- Exhaustive form of the digit injectivity of one Mod 11,10 step. -/
theorem step_inj_digit_aux : ∀ r < 11, ∀ d < 10, ∀ d' < 10,
    r < 1 ∨ d = d' ∨ mod1110Step r d ≠ mod1110Step r d' := by decide

/-- One Mod 11,10 step is injective in the digit. -/
theorem step_inj_digit {r d d' : Nat} (hr : 1 ≤ r) (hr10 : r ≤ 10) (hd : d ≤ 9)
    (hd' : d' ≤ 9) (hne : d ≠ d') : mod1110Step r d ≠ mod1110Step r d' := by
  rcases step_inj_digit_aux r (by omega) d (by omega) d' (by omega) with h | h | h
  · omega
  · exact absurd h hne
  · exact h

/-- Exhaustive form of the injectivity of the check-digit map on 1..10. -/
theorem check_digit_inj_aux : ∀ r < 11, ∀ r' < 11,
    r < 1 ∨ r' < 1 ∨ r = r' ∨ (11 - r) % 10 ≠ (11 - r') % 10 := by decide

/-- Distinct states in 1..10 give distinct check digits. -/
theorem check_digit_inj {r r' : Nat} (hr : 1 ≤ r) (hr10 : r ≤ 10) (hr' : 1 ≤ r')
    (hr10' : r' ≤ 10) (hne : r ≠ r') : (11 - r) % 10 ≠ (11 - r') % 10 := by
  rcases check_digit_inj_aux r (by omega) r' (by omega) with h | h | h | h
  · omega
  · omega
  · exact absurd h hne
  · exact h

/-- The folded Mod 11,10 state stays in 1..10 over digit values. -/
theorem foldl_step_range : ∀ (ds : List Nat), (∀ d ∈ ds, d ≤ 9) → ∀ r, 1 ≤ r → r ≤ 10 →
    1 ≤ List.foldl mod1110Step r ds ∧ List.foldl mod1110Step r ds ≤ 10 := by
  intro ds
  induction ds with
  | nil => intro _ r h1 h2; exact ⟨h1, h2⟩
  | cons d ds ih =>
    intro hall r h1 h2
    have hd : d ≤ 9 := hall d (List.mem_cons_self d ds)
    have hs := step_range r (by omega) h1 d (by omega)
    exact ih (fun x hx => hall x (List.mem_cons_of_mem d hx)) _ hs.1 hs.2

/-- The folded Mod 11,10 state is injective in the starting state. -/
theorem foldl_step_inj : ∀ (ds : List Nat), (∀ d ∈ ds, d ≤ 9) →
    ∀ r r', 1 ≤ r → r ≤ 10 → 1 ≤ r' → r' ≤ 10 → r ≠ r' →
    List.foldl mod1110Step r ds ≠ List.foldl mod1110Step r' ds := by
  intro ds
  induction ds with
  | nil => intro _ r r' _ _ _ _ hne; simpa using hne
  | cons d ds ih =>
    intro hall r r' h1 h2 h1' h2' hne
    have hd : d ≤ 9 := hall d (List.mem_cons_self d ds)
    have hs := step_range r (by omega) h1 d (by omega)
    have hs' := step_range r' (by omega) h1' d (by omega)
    have hstep := step_inj_state h1 h2 h1' h2' hd hne
    exact ih (fun x hx => hall x (List.mem_cons_of_mem d hx)) _ _ hs.1 hs.2 hs'.1 hs'.2 hstep

/-- Replacing one digit of the list by a different digit changes the
folded Mod 11,10 state. -/
theorem foldl_step_set : ∀ (ds : List Nat) (i d : Nat), (∀ x ∈ ds, x ≤ 9) →
    i < ds.length → d ≤ 9 → d ≠ ds.getD i 0 → ∀ r, 1 ≤ r → r ≤ 10 →
    List.foldl mod1110Step r (ds.set i d) ≠ List.foldl mod1110Step r ds := by
  intro ds
  induction ds with
  | nil => intro i d _ hi; simp at hi
  | cons x ds ih =>
    intro i d hall hi hd hne r h1 h2
    have hx : x ≤ 9 := hall x (List.mem_cons_self x ds)
    have htail : ∀ y ∈ ds, y ≤ 9 := fun y hy => hall y (List.mem_cons_of_mem x hy)
    cases i with
    | zero =>
      have hgd : d ≠ x := by simpa using hne
      rw [List.set_cons_zero, List.foldl_cons, List.foldl_cons]
      have hsd := step_range r (by omega) h1 d (by omega)
      have hsx := step_range r (by omega) h1 x (by omega)
      have hstep := step_inj_digit h1 h2 hd hx hgd
      exact foldl_step_inj ds htail _ _ hsd.1 hsd.2 hsx.1 hsx.2 hstep
    | succ i =>
      rw [List.set_cons_succ, List.foldl_cons, List.foldl_cons]
      have hs := step_range r (by omega) h1 x (by omega)
      exact ih i d htail (by simpa using hi) hd (by simpa using hne) _ hs.1 hs.2

/-- On an all-digit byte list the ValidateOIB loop computes the folded
Mod 11,10 state of the converted digits. -/
theorem oibLoop_eq_foldl : ∀ (bs : List Nat) (r : Nat), (∀ b ∈ bs, isDigitByte b = true) →
    oibLoop r bs = some (List.foldl mod1110Step r (bs.map goDigit)) := by
  intro bs
  induction bs with
  | nil => intro r _; rfl
  | cons b bs ih =>
    intro r hall
    have hb := hall b (List.mem_cons_self b bs)
    have h9 : ¬(goDigit b > 9) := by
      have := goDigit_le9_of_digit hb
      omega
    show (if goDigit b > 9 then none
      else oibLoop (mod1110Step r (goDigit b)) bs) = _
    rw [if_neg h9, ih _ (fun x hx => hall x (List.mem_cons_of_mem b hx))]
    rfl

/-- If the ValidateOIB loop succeeds, every byte it consumed converted
to a value at most 9. -/
theorem oibLoop_some_digit9 : ∀ (bs : List Nat) (r r' : Nat), oibLoop r bs = some r' →
    ∀ b ∈ bs, goDigit b ≤ 9 := by
  intro bs
  induction bs with
  | nil => intro r r' _ b hb; simp at hb
  | cons x bs ih =>
    intro r r' h b hb
    replace h : (if goDigit x > 9 then none
      else oibLoop (mod1110Step r (goDigit x)) bs) = some r' := h
    by_cases hx : goDigit x > 9
    · rw [if_pos hx] at h; cases h
    · rw [if_neg hx] at h
      rcases List.mem_cons.mp hb with rfl | hb'
      · omega
      · exact ih _ _ h b hb'

/-- The unfolding of ValidateOIB. -/
theorem validateOIB_eq (s : GoStr) :
    ValidateOIB s = if s.length ≠ 11 then false
      else match oibLoop 10 (s.take 10) with
        | none => false
        | some r =>
          if goDigit (s.getD 10 0) > 9 then false
          else (11 - r) % 10 == goDigit (s.getD 10 0) := rfl

/-- getD through a shorter take. -/
theorem getD_take_lt : ∀ (l : List Nat) (n i : Nat), i < n →
    (l.take n).getD i 0 = l.getD i 0 := by
  intro l
  induction l with
  | nil => intro n i _; simp
  | cons x l ih =>
    intro n i hin
    cases n with
    | zero => omega
    | succ n =>
      cases i with
      | zero => simp
      | succ i =>
        simp only [List.take_succ_cons, List.getD_cons_succ]
        exact ih n i (by omega)

/-- getD at the freshly set index. -/
theorem getD_set_self : ∀ (l : List Nat) (i a : Nat), i < l.length →
    (l.set i a).getD i 0 = a := by
  intro l
  induction l with
  | nil => intro i a h; simp at h
  | cons x l ih =>
    intro i a h
    cases i with
    | zero => simp
    | succ i =>
      simp only [List.set_cons_succ, List.getD_cons_succ]
      exact ih i a (by simpa using h)

/-- getD away from the set index. -/
theorem getD_set_ne : ∀ (l : List Nat) (i j a : Nat), i ≠ j →
    (l.set i a).getD j 0 = l.getD j 0 := by
  intro l
  induction l with
  | nil => intro i j a _; simp
  | cons x l ih =>
    intro i j a hne
    cases i with
    | zero =>
      cases j with
      | zero => exact absurd rfl hne
      | succ j => simp
    | succ i =>
      cases j with
      | zero => simp
      | succ j =>
        simp only [List.set_cons_succ, List.getD_cons_succ]
        exact ih i j a (by omega)

/-- getD through a map by the digit conversion. -/
theorem getD_map_goDigit : ∀ (l : List Nat) (i : Nat), i < l.length →
    (l.map goDigit).getD i 0 = goDigit (l.getD i 0) := by
  intro l
  induction l with
  | nil => intro i h; simp at h
  | cons x l ih =>
    intro i h
    cases i with
    | zero => simp
    | succ i =>
      simp only [List.map_cons, List.getD_cons_succ]
      exact ih i (by simpa using h)

/-- An in-range getD value is a member. -/
theorem getD_mem : ∀ (l : List Nat) (i : Nat), i < l.length → l.getD i 0 ∈ l := by
  intro l
  induction l with
  | nil => intro i h; simp at h
  | cons x l ih =>
    intro i h
    cases i with
    | zero => simp
    | succ i =>
      simp only [List.getD_cons_succ]
      exact List.mem_cons_of_mem x (ih i (by simpa using h))

/-- Setting an index below the taken prefix commutes with take. -/
theorem take_set_lt : ∀ (l : List Nat) (i n a : Nat), i < n →
    (l.set i a).take n = (l.take n).set i a := by
  intro l
  induction l with
  | nil => intro i n a _; simp
  | cons x l ih =>
    intro i n a hin
    cases i with
    | zero =>
      cases n with
      | zero => omega
      | succ n => simp
    | succ i =>
      cases n with
      | zero => omega
      | succ n =>
        simp only [List.set_cons_succ, List.take_succ_cons]
        rw [ih i n a (by omega)]

/-- Setting an index at or beyond the taken prefix leaves take alone. -/
theorem take_set_ge : ∀ (l : List Nat) (i n a : Nat), n ≤ i →
    (l.set i a).take n = l.take n := by
  intro l
  induction l with
  | nil => intro i n a _; simp
  | cons x l ih =>
    intro i n a hni
    cases n with
    | zero => simp
    | succ n =>
      cases i with
      | zero => omega
      | succ i =>
        simp only [List.set_cons_succ, List.take_succ_cons]
        rw [ih i n a (by omega)]

/-- Claim C7: ValidateOIB returns true for an 11-digit string exactly
when the last digit equals the Mod 11,10 check digit over the first
ten; it returns false for any string whose byte length is not 11 or
that contains a non-digit byte; and for a valid byte string, altering
any single position to a different digit makes it return false. -/
theorem C7_oib_mod1110 :
    (∀ s : GoStr, s.length = 11 → (∀ b ∈ s, isDigitByte b = true) →
      (ValidateOIB s = true ↔
        goDigit (s.getD 10 0) = mod1110CheckDigit ((s.take 10).map goDigit))) ∧
    (∀ s : GoStr, s.length ≠ 11 → ValidateOIB s = false) ∧
    (∀ s : GoStr, s.length = 11 → ∀ b ∈ s, b < 256 → isDigitByte b = false →
      ValidateOIB s = false) ∧
    (∀ s : GoStr, (∀ b ∈ s, b < 256) → ValidateOIB s = true →
      ∀ i < 11, ∀ c, isDigitByte c = true → c ≠ s.getD i 0 →
      ValidateOIB (s.set i c) = false) := by
  refine ⟨fun s hlen hdig => ?_, fun s h => ?_, fun s hlen b hb hblt hbnd => ?_,
    fun s hbytes hvalid i hi c hc hcne => ?_⟩
  · rw [validateOIB_eq, if_neg (by simp [hlen])]
    rw [oibLoop_eq_foldl _ 10 (fun b hb => hdig b (List.mem_of_mem_take hb))]
    dsimp only
    have hlast : isDigitByte (s.getD 10 0) = true := hdig _ (getD_mem s 10 (by omega))
    rw [if_neg (by have := goDigit_le9_of_digit hlast; omega), beq_iff_eq]
    unfold mod1110CheckDigit
    exact eq_comm
  · rw [validateOIB_eq, if_pos h]
  · rw [validateOIB_eq, if_neg (by simp [hlen])]
    cases hl : oibLoop 10 (s.take 10) with
    | none => rfl
    | some r =>
      dsimp only
      have hmem : b ∈ s.take 10 ∨ b ∈ s.drop 10 := by
        rw [← List.mem_append, List.take_append_drop]
        exact hb
      rcases hmem with htk | hdr
      · exact absurd (oibLoop_some_digit9 _ _ _ hl b htk)
          (by have := goDigit_gt9_of_nondigit b hblt hbnd; omega)
      · have hdrop : s.drop 10 = [s.getD 10 0] := by
          rw [List.drop_eq_getElem_cons (show 10 < s.length by omega),
            List.drop_eq_nil_of_le (show s.length ≤ 11 by omega),
            List.getD_eq_getElem s 0 (show 10 < s.length by omega)]
        rw [hdrop] at hdr
        have hbe : b = s.getD 10 0 := by simpa using hdr
        rw [if_pos (by rw [← hbe]; exact goDigit_gt9_of_nondigit b hblt hbnd)]
  · rw [validateOIB_eq] at hvalid
    by_cases hlen : s.length = 11
    · rw [if_neg (by simp [hlen])] at hvalid
      cases hl : oibLoop 10 (s.take 10) with
      | none => rw [hl] at hvalid; simp at hvalid
      | some r =>
        rw [hl] at hvalid
        dsimp only at hvalid
        by_cases hlast9 : goDigit (s.getD 10 0) > 9
        · rw [if_pos hlast9] at hvalid
          exact absurd hvalid (by simp)
        · rw [if_neg hlast9] at hvalid
          have hcheck : (11 - r) % 10 = goDigit (s.getD 10 0) := beq_iff_eq.mp hvalid
          have htk9 : ∀ x ∈ s.take 10, goDigit x ≤ 9 := oibLoop_some_digit9 _ _ _ hl
          have htkdig : ∀ x ∈ s.take 10, isDigitByte x = true := by
            intro x hx
            cases hbb : isDigitByte x with
            | true => rfl
            | false =>
              exact absurd (htk9 x hx)
                (by have := goDigit_gt9_of_nondigit x
                      (hbytes x (List.mem_of_mem_take hx)) hbb
                    omega)
          have hlastmem : s.getD 10 0 ∈ s := getD_mem s 10 (by omega)
          have hlastdig : isDigitByte (s.getD 10 0) = true := by
            cases hbb : isDigitByte (s.getD 10 0) with
            | true => rfl
            | false =>
              exact absurd (goDigit_gt9_of_nondigit _ (hbytes _ hlastmem) hbb) (by omega)
          have hfold := oibLoop_eq_foldl (s.take 10) 10 htkdig
          have hr : List.foldl mod1110Step 10 ((s.take 10).map goDigit) = r :=
            Option.some.inj (hfold.symm.trans hl)
          have hds9 : ∀ d ∈ (s.take 10).map goDigit, d ≤ 9 := by
            intro d hd
            obtain ⟨x, hx, rfl⟩ := List.mem_map.mp hd
            exact htk9 x hx
          have hlen10 : ((s.take 10).map goDigit).length = 10 := by
            rw [List.length_map, List.length_take]
            omega
          have hrange := foldl_step_range _ hds9 10 (by omega) (by omega)
          rcases Nat.lt_or_ge i 10 with hi10 | hi10
          · rw [validateOIB_eq, if_neg (by simp [List.length_set, hlen])]
            have htake : (s.set i c).take 10 = (s.take 10).set i c := take_set_lt s i 10 c hi10
            have hdigits' : ∀ x ∈ (s.set i c).take 10, isDigitByte x = true := by
              rw [htake]
              intro x hx
              rcases List.mem_or_eq_of_mem_set hx with hx' | rfl
              · exact htkdig x hx'
              · exact hc
            rw [oibLoop_eq_foldl _ 10 hdigits']
            dsimp only
            have hgetD10 : (s.set i c).getD 10 0 = s.getD 10 0 :=
              getD_set_ne s i 10 c (by omega)
            rw [hgetD10, if_neg hlast9]
            have hmap : ((s.set i c).take 10).map goDigit =
                ((s.take 10).map goDigit).set i (goDigit c) := by
              rw [htake, List.map_set]
            rw [hmap]
            have hlt : i < (s.take 10).length := by
              rw [List.length_take]
              omega
            have htakei : (s.take 10).getD i 0 = s.getD i 0 := getD_take_lt s 10 i hi10
            have hgd_at : ((s.take 10).map goDigit).getD i 0 = goDigit (s.getD i 0) := by
              rw [getD_map_goDigit _ i hlt, htakei]
            have horig_mem : s.getD i 0 ∈ s.take 10 := by
              rw [← htakei]
              exact getD_mem _ i hlt
            have horigdig := htkdig _ horig_mem
            have hgne : goDigit c ≠ ((s.take 10).map goDigit).getD i 0 := by
              rw [hgd_at]
              exact goDigit_inj_digit hc horigdig hcne
            have hfne := foldl_step_set _ i (goDigit c) hds9 (by rw [hlen10]; omega)
              (goDigit_le9_of_digit hc) hgne 10 (by omega) (by omega)
            have hds9' : ∀ d ∈ ((s.take 10).map goDigit).set i (goDigit c), d ≤ 9 := by
              intro d hd
              rcases List.mem_or_eq_of_mem_set hd with hd' | rfl
              · exact hds9 d hd'
              · exact goDigit_le9_of_digit hc
            have hrange' := foldl_step_range _ hds9' 10 (by omega) (by omega)
            rw [beq_eq_false_iff_ne, ← hcheck, ← hr]
            exact check_digit_inj hrange'.1 hrange'.2 hrange.1 hrange.2 hfne
          · have hieq : i = 10 := by omega
            subst hieq
            rw [validateOIB_eq, if_neg (by simp [List.length_set, hlen])]
            rw [take_set_ge s 10 10 c (le_refl 10), hl]
            dsimp only
            have hget : (s.set 10 c).getD 10 0 = c := getD_set_self s 10 c (by omega)
            rw [hget, if_neg (by have := goDigit_le9_of_digit hc; omega)]
            rw [beq_eq_false_iff_ne, hcheck]
            exact goDigit_inj_digit hlastdig hc (fun he => hcne he.symm)
    · rw [if_pos hlen] at hvalid
      cases hvalid

/-- Witness for C7 at the concrete valid OIB 65049901548: the
characterization instance holds there. -/
theorem C7_oib_mod1110_witness :
    ValidateOIB (gostr "65049901548") = true ↔
      goDigit ((gostr "65049901548").getD 10 0) =
        mod1110CheckDigit (((gostr "65049901548").take 10).map goDigit) :=
  C7_oib_mod1110.1 (gostr "65049901548") (by decide) (by decide)

/-!
## Claim C9
-/

/-- Sorting attributes is invariant under permutation: the order is a
total, transitive and antisymmetric relation on whole attributes. -/
theorem sortAttrs_perm_eq {l l' : List Attr} (h : l.Perm l') : sortAttrs l = sortAttrs l' :=
  List.eq_of_perm_of_sorted
    (((List.perm_insertionSort attrRel l).trans h).trans
      (List.perm_insertionSort attrRel l').symm)
    (List.sorted_insertionSort attrRel l) (List.sorted_insertionSort attrRel l')

/-- The filter on a non-declaration attribute: keep it, state unchanged. -/
theorem filterNs_cons_nondecl (seen : List Attr) (a : Attr) (l : List Attr)
    (h : isNsDecl a.1 = false) :
    filterNs seen (a :: l) = (a :: (filterNs seen l).1, (filterNs seen l).2) := by
  conv_lhs => unfold filterNs
  rw [if_neg (by simp [h])]

/-- The filter on a redeclaration identical to a visible binding: drop
it, state unchanged. -/
theorem filterNs_cons_drop (seen : List Attr) (a : Attr) (l : List Attr)
    (hns : isNsDecl a.1 = true) (hlk : nsLookup seen a.1 = some a.2) :
    filterNs seen (a :: l) = filterNs seen l := by
  conv_lhs => unfold filterNs
  rw [if_pos hns, hlk]
  dsimp only
  rw [if_pos rfl]

/-- The filter on a declaration that changes a visible binding: keep it
and record the new binding. -/
theorem filterNs_cons_keep_some (seen : List Attr) (a : Attr) (l : List Attr) (v : List Char)
    (hns : isNsDecl a.1 = true) (hlk : nsLookup seen a.1 = some v) (hv : v ≠ a.2) :
    filterNs seen (a :: l) =
      (a :: (filterNs ((a.1, a.2) :: seen) l).1, (filterNs ((a.1, a.2) :: seen) l).2) := by
  conv_lhs => unfold filterNs
  rw [if_pos hns, hlk]
  dsimp only
  rw [if_neg hv]

/-- The filter on a declaration of an unbound name: keep it and record
the binding. -/
theorem filterNs_cons_keep_none (seen : List Attr) (a : Attr) (l : List Attr)
    (hns : isNsDecl a.1 = true) (hlk : nsLookup seen a.1 = none) :
    filterNs seen (a :: l) =
      (a :: (filterNs ((a.1, a.2) :: seen) l).1, (filterNs ((a.1, a.2) :: seen) l).2) := by
  conv_lhs => unfold filterNs
  rw [if_pos hns, hlk]

/-- The kept attributes are a sublist of the input. -/
theorem filterNs_sublist : ∀ (l : List Attr) (seen : List Attr),
    (filterNs seen l).1.Sublist l := by
  intro l
  induction l with
  | nil => intro seen; exact List.Sublist.refl _
  | cons a l ih =>
    intro seen
    cases hns : isNsDecl a.1 with
    | false =>
      rw [filterNs_cons_nondecl seen a l hns]
      exact (ih _).cons₂ a
    | true =>
      cases hlk : nsLookup seen a.1 with
      | none =>
        rw [filterNs_cons_keep_none seen a l hns hlk]
        exact (ih _).cons₂ a
      | some v =>
        by_cases hv : v = a.2
        · rw [hv] at hlk
          rw [filterNs_cons_drop seen a l hns hlk]
          exact (ih _).cons a
        · rw [filterNs_cons_keep_some seen a l v hns hlk hv]
          exact (ih _).cons₂ a

/-- Refiltering the kept attributes under the same visible bindings
keeps them all and rebuilds the same bindings. -/
theorem filterNs_self : ∀ (l : List Attr) (seen : List Attr),
    filterNs seen (filterNs seen l).1 = filterNs seen l := by
  intro l
  induction l with
  | nil => intro seen; rfl
  | cons a l ih =>
    intro seen
    cases hns : isNsDecl a.1 with
    | false =>
      rw [filterNs_cons_nondecl seen a l hns]
      show filterNs seen (a :: (filterNs seen l).1) = _
      rw [filterNs_cons_nondecl seen a _ hns, ih seen]
    | true =>
      cases hlk : nsLookup seen a.1 with
      | none =>
        rw [filterNs_cons_keep_none seen a l hns hlk]
        show filterNs seen (a :: (filterNs ((a.1, a.2) :: seen) l).1) = _
        rw [filterNs_cons_keep_none seen a _ hns hlk, ih ((a.1, a.2) :: seen)]
      | some v =>
        by_cases hv : v = a.2
        · rw [hv] at hlk
          rw [filterNs_cons_drop seen a l hns hlk]
          exact ih seen
        · rw [filterNs_cons_keep_some seen a l v hns hlk hv]
          show filterNs seen (a :: (filterNs ((a.1, a.2) :: seen) l).1) = _
          rw [filterNs_cons_keep_some seen a _ v hns hlk hv, ih ((a.1, a.2) :: seen)]

/-- prepNode maps an element to an element. -/
theorem prepNode_elem_shape (seen : List Attr) (n : List Char) (attrs : List Attr)
    (ch : XForest) :
    prepNode seen (.elem n attrs ch) =
      .elem n (filterNs seen (sortAttrs attrs)).1
        (prepForest (filterNs seen (sortAttrs attrs)).2 ch) := rfl

mutual

/-- Preparing an already prepared node changes nothing: canonical
preparation is idempotent. -/
theorem prepNode_idem : ∀ (t : XNode) (seen : List Attr),
    prepNode seen (prepNode seen t) = prepNode seen t
  | .elem n attrs ch, seen => by
    rw [prepNode_elem_shape, prepNode_elem_shape]
    have hsorted := List.sorted_insertionSort attrRel attrs
    have hsub := filterNs_sublist (sortAttrs attrs) seen
    have hksorted : List.Sorted attrRel (filterNs seen (sortAttrs attrs)).1 :=
      List.Pairwise.sublist hsub hsorted
    have hsk : sortAttrs (filterNs seen (sortAttrs attrs)).1 =
        (filterNs seen (sortAttrs attrs)).1 := hksorted.insertionSort_eq
    rw [hsk, filterNs_self (sortAttrs attrs) seen]
    rw [prepForest_idem ch (filterNs seen (sortAttrs attrs)).2]
  | .text s, _ => rfl
  | .comment s, _ => rfl

/-- Preparing an already prepared forest changes nothing. -/
theorem prepForest_idem : ∀ (f : XForest) (seen : List Attr),
    prepForest seen (prepForest seen f) = prepForest seen f
  | .nil, _ => rfl
  | .cons (.comment s) tl, seen => prepForest_idem tl seen
  | .cons (.text s) tl, seen => by
    show XForest.cons (.text s) (prepForest seen (prepForest seen tl)) =
      XForest.cons (.text s) (prepForest seen tl)
    rw [prepForest_idem tl seen]
  | .cons (.elem n a c) tl, seen => by
    show XForest.cons (prepNode seen (prepNode seen (.elem n a c)))
        (prepForest seen (prepForest seen tl)) =
      XForest.cons (prepNode seen (.elem n a c)) (prepForest seen tl)
    rw [prepNode_idem (.elem n a c) seen, prepForest_idem tl seen]

end

mutual

/-- Nodes that differ only by attribute permutations, recursively. -/
inductive EqvN : XNode → XNode → Prop where
  | elem {n : List Char} {attrs attrs' : List Attr} {ch ch' : XForest} :
      attrs.Perm attrs' → EqvF ch ch' → EqvN (.elem n attrs ch) (.elem n attrs' ch')
  | text (s : List Char) : EqvN (.text s) (.text s)
  | comment (s : List Char) : EqvN (.comment s) (.comment s)

/-- Forests that differ only by attribute permutations, pointwise. -/
inductive EqvF : XForest → XForest → Prop where
  | nil : EqvF .nil .nil
  | cons {hd hd' : XNode} {tl tl' : XForest} :
      EqvN hd hd' → EqvF tl tl' → EqvF (.cons hd tl) (.cons hd' tl')

end

mutual

/-- Canonical preparation identifies nodes differing only by attribute
order. -/
theorem prepNode_eqv : ∀ {t t' : XNode}, EqvN t t' → ∀ (seen : List Attr),
    prepNode seen t = prepNode seen t'
  | _, _, .elem hperm hch, seen => by
    rw [prepNode_elem_shape, prepNode_elem_shape, sortAttrs_perm_eq hperm]
    rw [prepForest_eqv hch _]
  | _, _, .text s, _ => rfl
  | _, _, .comment s, _ => rfl

/-- Canonical preparation identifies forests differing only by
attribute order. -/
theorem prepForest_eqv : ∀ {f f' : XForest}, EqvF f f' → ∀ (seen : List Attr),
    prepForest seen f = prepForest seen f'
  | _, _, .nil, _ => rfl
  | _, _, .cons (.elem hperm hch) htl, seen => by
    show XForest.cons (prepNode seen (.elem _ _ _)) (prepForest seen _) =
      XForest.cons (prepNode seen (.elem _ _ _)) (prepForest seen _)
    rw [prepNode_eqv (.elem hperm hch) seen, prepForest_eqv htl seen]
  | _, _, .cons (.text s) htl, seen => by
    show XForest.cons (.text s) (prepForest seen _) = XForest.cons (.text s) (prepForest seen _)
    rw [prepForest_eqv htl seen]
  | _, _, .cons (.comment s) htl, seen => prepForest_eqv htl seen

end

/-- Inserting a namespace redeclaration identical to a visible binding
into a sorted attribute list does not change the filtered result. -/
theorem filterNs_insert_redundant (nm v : List Char) (hns : isNsDecl nm = true) :
    ∀ (l : List Attr) (seen : List Attr), nsLookup seen nm = some v →
    nm ∉ l.map Prod.fst →
    filterNs seen (List.orderedInsert attrRel (nm, v) l) = filterNs seen l := by
  intro l
  induction l with
  | nil =>
    intro seen hlook _
    show filterNs seen [(nm, v)] = filterNs seen []
    rw [filterNs_cons_drop seen (nm, v) [] hns hlook]
  | cons a l ih =>
    intro seen hlook hnotin
    have hanm : a.1 ≠ nm := by
      intro he
      exact hnotin (by rw [← he]; exact List.mem_map_of_mem Prod.fst (List.mem_cons_self a l))
    have hnotin' : nm ∉ l.map Prod.fst := fun hm => hnotin (List.mem_cons_of_mem _ hm)
    rw [List.orderedInsert]
    by_cases hle : attrRel (nm, v) a
    · rw [if_pos hle]
      exact filterNs_cons_drop seen (nm, v) (a :: l) hns hlook
    · rw [if_neg hle]
      cases hans : isNsDecl a.1 with
      | false =>
        rw [filterNs_cons_nondecl seen a _ hans, filterNs_cons_nondecl seen a l hans,
          ih seen hlook hnotin']
      | true =>
        have hlook' : nsLookup ((a.1, a.2) :: seen) nm = some v := by
          unfold nsLookup
          rw [if_neg hanm]
          exact hlook
        cases hlk : nsLookup seen a.1 with
        | none =>
          rw [filterNs_cons_keep_none seen a _ hans hlk,
            filterNs_cons_keep_none seen a l hans hlk,
            ih ((a.1, a.2) :: seen) hlook' hnotin']
        | some w =>
          by_cases hw : w = a.2
          · rw [hw] at hlk
            rw [filterNs_cons_drop seen a _ hans hlk, filterNs_cons_drop seen a l hans hlk,
              ih seen hlook hnotin']
          · rw [filterNs_cons_keep_some seen a _ w hans hlk hw,
              filterNs_cons_keep_some seen a l w hans hlk hw,
              ih ((a.1, a.2) :: seen) hlook' hnotin']

/-- A namespace redeclaration identical to an already-visible binding is
suppressed: preparing the element with or without it is the same. -/
theorem prepNode_redundant (seen : List Attr) (n nm v : List Char) (attrs : List Attr)
    (ch : XForest) (hns : isNsDecl nm = true) (hlook : nsLookup seen nm = some v)
    (hnotin : nm ∉ attrs.map Prod.fst) :
    prepNode seen (.elem n ((nm, v) :: attrs) ch) = prepNode seen (.elem n attrs ch) := by
  rw [prepNode_elem_shape, prepNode_elem_shape]
  have hsort : sortAttrs ((nm, v) :: attrs) =
      List.orderedInsert attrRel (nm, v) (sortAttrs attrs) := rfl
  have hnotin' : nm ∉ (sortAttrs attrs).map Prod.fst := by
    intro hm
    apply hnotin
    obtain ⟨a, ha, rfl⟩ := List.mem_map.mp hm
    exact List.mem_map_of_mem Prod.fst ((List.perm_insertionSort attrRel attrs).mem_iff.mp ha)
  rw [hsort, filterNs_insert_redundant nm v hns (sortAttrs attrs) seen hlook hnotin']

/-- Claim C9 (modelled from the spec, section 4.3, since the repository
package etreeutils with TransformExcC14n is not under src): exclusive
canonicalization is idempotent at the byte level; documents differing
only in attribute order canonicalize to identical bytes; and a
redundant xmlns redeclaration identical to an already-visible ancestor
binding is suppressed, so its presence does not change the result. -/
theorem C9_canonicalization :
    (∀ t : XNode, canonicalizeExcl (prepNode [] t) = canonicalizeExcl t) ∧
    (∀ t t' : XNode, EqvN t t' → canonicalizeExcl t = canonicalizeExcl t') ∧
    (∀ (seen : List Attr) (n nm v : List Char) (attrs : List Attr) (ch : XForest),
      isNsDecl nm = true → nsLookup seen nm = some v → nm ∉ attrs.map Prod.fst →
      prepNode seen (.elem n ((nm, v) :: attrs) ch) = prepNode seen (.elem n attrs ch)) :=
  ⟨fun t => congrArg serializeNode (prepNode_idem t []),
   fun _ _ h => congrArg serializeNode (prepNode_eqv h []),
   prepNode_redundant⟩

/-- Witness for C9: the spec's example element with its two attributes
swapped canonicalizes identically, and a child redeclaring the already
visible default namespace binding urn:foo prepares identically with and
without the redeclaration. -/
theorem C9_canonicalization_witness :
    canonicalizeExcl (.elem "Foo".data [("ID".data, "x".data), ("xmlns".data, "urn:foo".data)]
        (.cons (.elem "Baz".data [] .nil) .nil)) =
      canonicalizeExcl (.elem "Foo".data [("xmlns".data, "urn:foo".data), ("ID".data, "x".data)]
        (.cons (.elem "Baz".data [] .nil) .nil)) ∧
    prepNode [("xmlns".data, "urn:foo".data)]
        (.elem "Baz".data [("xmlns".data, "urn:foo".data)] .nil) =
      prepNode [("xmlns".data, "urn:foo".data)] (.elem "Baz".data [] .nil) :=
  ⟨C9_canonicalization.2.1 _ _
      (EqvN.elem (List.Perm.swap ("xmlns".data, "urn:foo".data) ("ID".data, "x".data) [])
        (EqvF.cons (EqvN.elem (List.Perm.refl []) EqvF.nil) EqvF.nil)),
    C9_canonicalization.2.2 [("xmlns".data, "urn:foo".data)] "Baz".data "xmlns".data
      "urn:foo".data [] .nil (by decide) (by decide) (by decide)⟩

end FiskalHR
